import Mathlib

/-!
Verification development for the authorization and rate-limiting core of the
mygarage.bio repository.

Shallow embedding of:
* `public.rate_limit_consume` (SQL, atomic fixed-window counter),
* `enforceDurableRateLimit` / `consumeBucket` (TypeScript rate-limiter policy),
* the row-level-security predicates for profiles/vehicles/mods/images and the
  public projection views,
* `public.mygarage_object_owner_can_write` (storage path authorization),
* `public.reorder_vehicle_swap` / `public.reorder_mod_swap` (adjacent-swap
  reorder protocol).

Timestamps are modelled as rational epoch seconds where sub-second precision
matters (the rate-limit window arithmetic) and as integers elsewhere.  SQL
`integer` columns are modelled as `Int`; the values involved never approach
the 32-bit range, and the clamping in the source keeps them small.
-/

/-! ### Rate limit store: `public.rate_limit_buckets` and `rate_limit_consume` -/

/-- One row of `public.rate_limit_buckets`.  `updated_at` is bookkeeping only
and is omitted.  Timestamps are integer epoch seconds: the source computes
`window_started_at` as `floor(epoch/window)*window`, an integer multiple of
the integer `window_seconds`, so all window bounds are integral. -/
structure BucketRow where
  bucket_key : String
  window_started_at : Int
  window_seconds : Int
  request_count : Int
  window_ends_at : Int
  expires_at : Int
deriving DecidableEq

/-- The `returns table` payload of `rate_limit_consume`. -/
structure ConsumeRow where
  allowed : Bool
  remaining : Int
  retry_after_seconds : Int
  window_ends_at : Int
deriving DecidableEq

/-- SQL `trim(text)`: strip leading and trailing space characters.  Written
over the character list so that it evaluates by kernel reduction. -/
def sqlTrim (s : String) : String :=
  String.mk (((s.data.dropWhile (· == ' ')).reverse.dropWhile (· == ' ')).reverse)

/-- Clamp of `p_window_seconds`: `greatest(1, least(ws, 86400))`. -/
def clampWindowSeconds (ws : Int) : Int := max 1 (min ws 86400)

/-- Clamp of `p_max_requests`: `greatest(1, least(mr, 100000))`. -/
def clampMaxRequests (mr : Int) : Int := max 1 (min mr 100000)

/-- Embedding of `public.rate_limit_consume(p_bucket_key, p_max_requests,
p_window_seconds)`.  `prev` is the `rate_limit_buckets` row currently stored
under the key, if any (the upsert conflicts only on `bucket_key`, so the
function reads and writes no other row; the probabilistic
`rate_limit_cleanup_expired` call deletes only rows whose `expires_at` is in
the past, which the freshly upserted row never is).  `now` is
`extract(epoch from timezone('utc', now()))` as a rational number of seconds.
Returns the upserted row together with the result payload, or the raised
error message for an empty key. -/
def rate_limit_consume (prev : Option BucketRow) (now : ℚ) (key : String)
    (maxRequests windowSeconds : Int) : Except String (BucketRow × ConsumeRow) :=
  let vKey := sqlTrim key
  if vKey = "" then
    .error "rate_limit_consume requires a non-empty key"
  else
    let w := clampWindowSeconds windowSeconds
    let m := clampMaxRequests maxRequests
    let start : Int := ⌊now / (w : ℚ)⌋ * w
    let ends : Int := start + w
    let expires : Int := ends + max w 600
    let count : Int :=
      match prev with
      | some rl =>
          if rl.window_started_at = start ∧ rl.window_seconds = w then
            rl.request_count + 1
          else
            1
      | none => 1
    let allowed : Bool := decide (count ≤ m)
    let retry : Int := if allowed then 0 else max 1 ⌈(ends : ℚ) - now⌉
    .ok (⟨vKey, start, w, count, ends, expires⟩,
         ⟨allowed, max (m - count) 0, retry, ends⟩)

/-- A sequence of serialized `rate_limit_consume` calls against one key, each
threading the bucket row produced by the previous call.  This is the
semantics of the atomic conditional upsert: concurrent callers are serialized
by the storage layer, so any interleaving is some such sequence. -/
def runConsumes (prev : Option BucketRow) (nows : List ℚ) (key : String)
    (maxRequests windowSeconds : Int) : Except String (Option BucketRow) :=
  match nows with
  | [] => .ok prev
  | t :: rest =>
      match rate_limit_consume prev t key maxRequests windowSeconds with
      | .error e => .error e
      | .ok (row, _) => runConsumes (some row) rest key maxRequests windowSeconds

lemma clampWindowSeconds_bounds (ws : Int) :
    1 ≤ clampWindowSeconds ws ∧ clampWindowSeconds ws ≤ 86400 := by
  unfold clampWindowSeconds
  constructor <;> omega

lemma clampMaxRequests_bounds (mr : Int) :
    1 ≤ clampMaxRequests mr ∧ clampMaxRequests mr ≤ 100000 := by
  unfold clampMaxRequests
  constructor <;> omega

/-- Full input/output contract of one `rate_limit_consume` call, stated over
the row stored under the key before the call. -/
def ConsumeContract (prev : Option BucketRow) (now : ℚ) (key : String)
    (maxRequests windowSeconds : Int) : Prop :=
  ∃ row res,
    rate_limit_consume prev now key maxRequests windowSeconds = .ok (row, res) ∧
    row.window_seconds = clampWindowSeconds windowSeconds ∧
    1 ≤ row.window_seconds ∧ row.window_seconds ≤ 86400 ∧
    1 ≤ clampMaxRequests maxRequests ∧ clampMaxRequests maxRequests ≤ 100000 ∧
    row.window_started_at
      = ⌊now / (clampWindowSeconds windowSeconds : ℚ)⌋ * clampWindowSeconds windowSeconds ∧
    row.window_ends_at = row.window_started_at + row.window_seconds ∧
    (∀ rl, prev = some rl →
      (rl.window_started_at = row.window_started_at ∧ rl.window_seconds = row.window_seconds →
        row.request_count = rl.request_count + 1) ∧
      (¬(rl.window_started_at = row.window_started_at ∧ rl.window_seconds = row.window_seconds) →
        row.request_count = 1)) ∧
    (prev = none → row.request_count = 1) ∧
    res.allowed = decide (row.request_count ≤ clampMaxRequests maxRequests) ∧
    res.remaining = max (clampMaxRequests maxRequests - row.request_count) 0 ∧
    res.retry_after_seconds
      = (if res.allowed then (0 : Int) else max 1 ⌈(row.window_ends_at : ℚ) - now⌉) ∧
    res.window_ends_at = row.window_ends_at

/-- C2: for every `consume(bucket_key, max_requests, window_seconds)` call with
a non-empty (trimmed) key, `window_seconds` is clamped to `[1, 86400]` and
`max_requests` to `[1, 100000]`; the canonical window start is
`floor(now/window_seconds) * window_seconds`; an existing row for the same
`(window_started_at, window_seconds)` has its `request_count` incremented by
exactly 1, otherwise `request_count` is reset to 1 and the window bounds are
overwritten; and the result satisfies `allowed = (request_count <= max)`,
`remaining = max(max - count, 0)`, `retry_after_seconds = 0` when allowed and
`max(1, ceil(window_ends_at - now))` otherwise. -/
theorem c2_rate_limit_consume_spec (prev : Option BucketRow) (now : ℚ) (key : String)
    (maxRequests windowSeconds : Int) (hkey : sqlTrim key ≠ "") :
    ConsumeContract prev now key maxRequests windowSeconds := by
  have h86 := clampWindowSeconds_bounds windowSeconds
  have hmx := clampMaxRequests_bounds maxRequests
  unfold ConsumeContract
  cases prev with
  | none =>
      simp only [rate_limit_consume, if_neg hkey]
      refine ⟨_, _, rfl, rfl, h86.1, h86.2, hmx.1, hmx.2, rfl, rfl, ?_, ?_, rfl, rfl, rfl, rfl⟩
      · intro rl h; cases h
      · intro _; rfl
  | some rl0 =>
      by_cases hc :
          rl0.window_started_at
              = ⌊now / (clampWindowSeconds windowSeconds : ℚ)⌋ * clampWindowSeconds windowSeconds
            ∧ rl0.window_seconds = clampWindowSeconds windowSeconds
      · have hcd :
            (if rl0.window_started_at
                  = ⌊now / (clampWindowSeconds windowSeconds : ℚ)⌋ * clampWindowSeconds windowSeconds
                ∧ rl0.window_seconds = clampWindowSeconds windowSeconds then
              rl0.request_count + 1
            else (1 : Int)) = rl0.request_count + 1 := if_pos hc
        simp only [rate_limit_consume, if_neg hkey, hcd]
        refine ⟨_, _, rfl, rfl, h86.1, h86.2, hmx.1, hmx.2, rfl, rfl, ?_, ?_, rfl, rfl, rfl, rfl⟩
        · intro rl h
          injection h with h
          subst h
          exact ⟨fun _ => rfl, fun hn => absurd hc hn⟩
        · intro h; cases h
      · have hcd :
            (if rl0.window_started_at
                  = ⌊now / (clampWindowSeconds windowSeconds : ℚ)⌋ * clampWindowSeconds windowSeconds
                ∧ rl0.window_seconds = clampWindowSeconds windowSeconds then
              rl0.request_count + 1
            else (1 : Int)) = 1 := if_neg hc
        simp only [rate_limit_consume, if_neg hkey, hcd]
        refine ⟨_, _, rfl, rfl, h86.1, h86.2, hmx.1, hmx.2, rfl, rfl, ?_, ?_, rfl, rfl, rfl, rfl⟩
        · intro rl h
          injection h with h
          subst h
          exact ⟨fun hp => absurd hp hc, fun _ => rfl⟩
        · intro h; cases h

/-- Witness for C2 at concrete input: fresh bucket, `now = 100`, key `"k"`,
`max_requests = 3`, `window_seconds = 60`. -/
theorem c2_rate_limit_consume_spec_witness :
    sqlTrim "k" ≠ "" ∧ ConsumeContract none 100 "k" 3 60 :=
  ⟨by decide, c2_rate_limit_consume_spec none 100 "k" 3 60 (by decide)⟩

lemma rate_limit_consume_same_window (r : BucketRow) (now : ℚ) (key : String)
    (maxRequests windowSeconds : Int) (hkey : sqlTrim key ≠ "")
    (hstart : r.window_started_at
      = ⌊now / (clampWindowSeconds windowSeconds : ℚ)⌋ * clampWindowSeconds windowSeconds)
    (hsec : r.window_seconds = clampWindowSeconds windowSeconds) :
    ∃ row res, rate_limit_consume (some r) now key maxRequests windowSeconds = .ok (row, res) ∧
      row.request_count = r.request_count + 1 ∧
      row.window_started_at = r.window_started_at ∧
      row.window_seconds = r.window_seconds := by
  have hcd :
      (if r.window_started_at
            = ⌊now / (clampWindowSeconds windowSeconds : ℚ)⌋ * clampWindowSeconds windowSeconds
          ∧ r.window_seconds = clampWindowSeconds windowSeconds then
        r.request_count + 1
      else (1 : Int)) = r.request_count + 1 := if_pos ⟨hstart, hsec⟩
  simp only [rate_limit_consume, if_neg hkey, hcd]
  exact ⟨_, _, rfl, rfl, hstart.symm, hsec.symm⟩

lemma rate_limit_consume_fresh (now : ℚ) (key : String)
    (maxRequests windowSeconds : Int) (hkey : sqlTrim key ≠ "") :
    ∃ row res, rate_limit_consume none now key maxRequests windowSeconds = .ok (row, res) ∧
      row.request_count = 1 ∧
      row.window_started_at
        = ⌊now / (clampWindowSeconds windowSeconds : ℚ)⌋ * clampWindowSeconds windowSeconds ∧
      row.window_seconds = clampWindowSeconds windowSeconds := by
  simp only [rate_limit_consume, if_neg hkey]
  exact ⟨_, _, rfl, rfl, rfl, rfl⟩

lemma runConsumes_same_window (key : String) (maxRequests windowSeconds : Int)
    (hkey : sqlTrim key ≠ "") (q : Int) :
    ∀ (nows : List ℚ) (r : BucketRow),
      (∀ t ∈ nows, ⌊t / (clampWindowSeconds windowSeconds : ℚ)⌋ = q) →
      r.window_started_at = q * clampWindowSeconds windowSeconds →
      r.window_seconds = clampWindowSeconds windowSeconds →
      ∃ row, runConsumes (some r) nows key maxRequests windowSeconds = .ok (some row) ∧
        row.request_count = r.request_count + nows.length ∧
        row.window_started_at = q * clampWindowSeconds windowSeconds ∧
        row.window_seconds = clampWindowSeconds windowSeconds := by
  intro nows
  induction nows with
  | nil =>
      intro r _ h1 h2
      exact ⟨r, rfl, by simp, h1, h2⟩
  | cons t rest ih =>
      intro r hw h1 h2
      have hq : ⌊t / (clampWindowSeconds windowSeconds : ℚ)⌋ = q := hw t (by simp)
      obtain ⟨row, res, hstep, hcount, hst, hse⟩ :=
        rate_limit_consume_same_window r t key maxRequests windowSeconds hkey
          (by rw [h1, hq]) h2
      obtain ⟨row2, hrun, hc2, hs2, hw2⟩ :=
        ih row (fun u hu => hw u (by simp [hu])) (by rw [hst, h1]) (by rw [hse, h2])
      refine ⟨row2, ?_, ?_, hs2, hw2⟩
      · simp only [runConsumes, hstep]
        exact hrun
      · rw [hc2, hcount]
        simp only [List.length_cons]
        omega

/-- C3: starting from no stored bucket, any serialization of `n` consume calls
against one key whose timestamps all fall in the same aligned window leaves
`request_count = n`.  The storage-level upsert is a single atomic conditional
update, so every interleaving of concurrent callers is one such serialization
with no lost updates. -/
theorem c3_serialized_consumes_no_lost_updates (key : String)
    (maxRequests windowSeconds : Int) (q : Int) (nows : List ℚ)
    (hkey : sqlTrim key ≠ "")
    (hw : ∀ t ∈ nows, ⌊t / (clampWindowSeconds windowSeconds : ℚ)⌋ = q)
    (hne : nows ≠ []) :
    ∃ row, runConsumes none nows key maxRequests windowSeconds = .ok (some row) ∧
      row.request_count = nows.length := by
  cases nows with
  | nil => exact absurd rfl hne
  | cons t rest =>
      have hq : ⌊t / (clampWindowSeconds windowSeconds : ℚ)⌋ = q := hw t (by simp)
      obtain ⟨row1, res1, hstep, hcnt1, hst1, hse1⟩ :=
        rate_limit_consume_fresh t key maxRequests windowSeconds hkey
      obtain ⟨row2, hrun, hc2, _, _⟩ :=
        runConsumes_same_window key maxRequests windowSeconds hkey q rest row1
          (fun u hu => hw u (by simp [hu])) (by rw [hst1, hq]) hse1
      refine ⟨row2, ?_, ?_⟩
      · simp only [runConsumes, hstep]
        exact hrun
      · rw [hc2, hcnt1]
        simp only [List.length_cons]
        omega

/-- Witness for C3: three consume calls at the same instant `now = 5` with a
1-second window (window index `q = 5`) leave `request_count = 3`. -/
theorem c3_serialized_consumes_no_lost_updates_witness :
    (sqlTrim "k" ≠ ""
      ∧ (∀ t ∈ [(5 : ℚ), 5, 5], ⌊t / (clampWindowSeconds 1 : ℚ)⌋ = 5)
      ∧ ([(5 : ℚ), 5, 5] ≠ [])) ∧
    ∃ row, runConsumes none [(5 : ℚ), 5, 5] "k" 3 1 = .ok (some row) ∧
      row.request_count = ([(5 : ℚ), 5, 5] : List ℚ).length := by
  have hw : ∀ t ∈ [(5 : ℚ), 5, 5], ⌊t / (clampWindowSeconds 1 : ℚ)⌋ = 5 := by
    have h : clampWindowSeconds 1 = 1 := by decide
    intro t ht
    simp only [List.mem_cons, List.not_mem_nil, or_false] at ht
    rcases ht with rfl | rfl | rfl <;> simp [h]
  exact ⟨⟨by decide, hw, by decide⟩,
    c3_serialized_consumes_no_lost_updates "k" 3 1 5 [5, 5, 5] (by decide) hw (by decide)⟩

/-! ### Rate limiter policy layer: `enforceDurableRateLimit` -/

/-- JS-style whitespace trim, written over the character list so that it
evaluates by kernel reduction. -/
def jsTrim (s : String) : String :=
  String.mk (((s.data.dropWhile Char.isWhitespace).reverse.dropWhile Char.isWhitespace).reverse)

/-- A `RateLimitRule` from `rate-limit.ts`. -/
structure RateLimitRule where
  maxRequests : Int
  windowMs : Int
deriving DecidableEq

/-- A `DurableRateLimitTarget` from `rate-limit.ts`. -/
structure DurableRateLimitTarget where
  scope : String
  identifier : String
  rule : RateLimitRule
  hashIdentifier : Bool

/-- Character class `[a-z0-9:._-]` kept verbatim by `normalizeKeyPart`. -/
def isSafeKeyChar (c : Char) : Bool :=
  ('a' ≤ c && c ≤ 'z') || ('0' ≤ c && c ≤ '9') || c == ':' || c == '.' || c == '_' || c == '-'

/-- Embedding of `normalizeKeyPart(value, fallback)`: trim, lowercase, replace
every character outside `[a-z0-9:._-]` with an underscore, then truncate to
160 characters, falling back when the normalized string is empty. -/
def normalizeKeyPart (value fallback : String) : String :=
  let normalized :=
    String.mk (((jsTrim value).data.map Char.toLower).map (fun c => if isSafeKeyChar c then c else '_'))
  if normalized.length > 0 then String.mk (normalized.data.take 160) else fallback

/-- Embedding of `toHashedKeyPart(value)`.  The SHA-256 hex digest is passed
in as the function `hash`; the TypeScript takes the first 48 hex characters
of the digest of the trimmed lowercased value, with `"unknown"` for an empty
input. -/
def toHashedKeyPart (hash : String → String) (value : String) : String :=
  let normalized := String.mk ((jsTrim value).data.map Char.toLower)
  if normalized = "" then "unknown" else String.mk ((hash normalized).data.take 48)

/-- Outcome of one `consumeBucket` call as observed by
`enforceDurableRateLimit`: either the parsed `{allowed, retryAfterSeconds}`
pair (with `retryAfterSeconds` already clamped to `max(0, floor _)` by
`consumeBucket`), or the thrown "Rate-limit backend unavailable." error. -/
inductive ConsumeOutcome where
  | ok (allowed : Bool) (retryAfterSeconds : Int)
  | backendUnavailable
deriving DecidableEq

/-- Result of `enforceDurableRateLimit`: normal return, a thrown
`RateLimitExceededError` carrying `retryAfterSeconds`, or the propagated
backend-unavailable error (a plain `Error`, a distinct type from
`RateLimitExceededError`). -/
inductive EnforceResult where
  | passed
  | rateLimitExceeded (retryAfterSeconds : Int)
  | limiterUnavailable
deriving DecidableEq

/-- Normalization applied to each target inside `enforceDurableRateLimit`. -/
def normalizeTarget (hash : String → String) (t : DurableRateLimitTarget) :
    DurableRateLimitTarget :=
  { scope := normalizeKeyPart t.scope "scope"
    identifier :=
      if t.hashIdentifier then toHashedKeyPart hash t.identifier
      else normalizeKeyPart t.identifier "unknown"
    rule := t.rule
    hashIdentifier := t.hashIdentifier }

/-- The `.map(...).filter((target) => target.identifier.length > 0)` pipeline. -/
def processedTargets (hash : String → String) (targets : List DurableRateLimitTarget) :
    List DurableRateLimitTarget :=
  (targets.map (normalizeTarget hash)).filter (fun t => t.identifier.length > 0)

/-- The composed bucket key `rl:{action}:{scope}:{identifier}`. -/
def bucketKeyOf (action : String) (t : DurableRateLimitTarget) : String :=
  "rl:" ++ action ++ ":" ++ t.scope ++ ":" ++ t.identifier

/-- Retry seconds of a blocked result, `none` for allowed or failed calls. -/
def blockedRetry : ConsumeOutcome → Option Int
  | .ok allowed retry => if allowed then none else some retry
  | .backendUnavailable => none

/-- Embedding of `enforceDurableRateLimit(options)`.  `consume` maps a bucket
key and rule to the observed `consumeBucket` outcome (the durable store plus
transport).  Returns the control-flow result together with the list of bucket
keys for which `consume` was invoked; an early return on zero targets invokes
`consume` on no key at all.  `Promise.all` rejects with the first error, so
any `backendUnavailable` outcome makes the whole call propagate that error;
otherwise the blocked results are folded with `Math.max` starting from 1 and
the `RateLimitExceededError` constructor clamps once more to `max 1 _`. -/
def enforceDurableRateLimit (hash : String → String)
    (consume : String → RateLimitRule → ConsumeOutcome)
    (action0 : String) (targets : List DurableRateLimitTarget) :
    EnforceResult × List String :=
  let action := normalizeKeyPart action0 "action"
  let ts := processedTargets hash targets
  if ts.isEmpty then (.passed, [])
  else
    let keys := ts.map (bucketKeyOf action)
    let results := ts.map (fun t => consume (bucketKeyOf action t) t.rule)
    if results.any (fun r => r == .backendUnavailable) then
      (.limiterUnavailable, keys)
    else
      let blocked := results.filterMap blockedRetry
      if blocked.isEmpty then (.passed, keys)
      else
        let retry := blocked.foldl (fun acc r => max acc r) 1
        (.rateLimitExceeded (max 1 retry), keys)

/-- C10: with an empty `targets` array the call returns normally at once —
`consume` is never invoked, no bucket key is touched, and no error of either
kind is raised. -/
theorem c10_enforce_empty_targets_is_noop (hash : String → String)
    (consume : String → RateLimitRule → ConsumeOutcome) (action : String) :
    enforceDurableRateLimit hash consume action [] = (.passed, []) := rfl

lemma foldlMax_init_le : ∀ (l : List Int) (a : Int), a ≤ l.foldl (fun acc r => max acc r) a
  | [], _ => le_refl _
  | b :: l, a => le_trans (le_max_left a b) (foldlMax_init_le l (max a b))

lemma foldlMax_mem_le : ∀ (l : List Int) (a : Int) (x : Int),
    x ∈ l → x ≤ l.foldl (fun acc r => max acc r) a
  | b :: l, a, x, h => by
      rcases List.mem_cons.mp h with rfl | h'
      · exact le_trans (le_max_right a x) (foldlMax_init_le l _)
      · exact foldlMax_mem_le l (max a b) x h'

lemma foldlMax_mem_or : ∀ (l : List Int) (a : Int),
    l.foldl (fun acc r => max acc r) a = a ∨ l.foldl (fun acc r => max acc r) a ∈ l
  | [], _ => Or.inl rfl
  | b :: l, a => by
      rcases foldlMax_mem_or l (max a b) with h | h
      · rcases max_choice a b with hm | hm
        · exact Or.inl (by rw [List.foldl_cons, h, hm])
        · exact Or.inr (by rw [List.foldl_cons, h, hm]; exact List.mem_cons_self b l)
      · exact Or.inr (List.mem_cons_of_mem b h)

lemma blocked_mem_iff (results : List ConsumeOutcome) (x : Int) :
    x ∈ results.filterMap blockedRetry ↔ .ok false x ∈ results := by
  rw [List.mem_filterMap]
  constructor
  · rintro ⟨out, hmem, hsome⟩
    cases out with
    | ok a retry =>
        cases a with
        | false =>
            simp only [blockedRetry, if_neg (by simp : ¬(false = true))] at hsome
            injection hsome with hsome
            subst hsome
            exact hmem
        | true => simp [blockedRetry] at hsome
    | backendUnavailable => simp [blockedRetry] at hsome
  · intro hmem
    exact ⟨.ok false x, hmem, by simp [blockedRetry]⟩

/-- Full contract of `enforceDurableRateLimit` over the per-target consume
outcomes.  `ts` is the normalized/filtered target list, and `blocked` is the
list of `retryAfterSeconds` values of the not-allowed results. -/
def C4Spec (hash : String → String) (consume : String → RateLimitRule → ConsumeOutcome)
    (action : String) (targets : List DurableRateLimitTarget) : Prop :=
  let ts := processedTargets hash targets
  let key := bucketKeyOf (normalizeKeyPart action "action")
  let results := ts.map (fun t => consume (key t) t.rule)
  let blocked := results.filterMap blockedRetry
  ((∃ t ∈ ts, consume (key t) t.rule = .backendUnavailable) →
      (enforceDurableRateLimit hash consume action targets).1 = .limiterUnavailable) ∧
  (∀ r, EnforceResult.limiterUnavailable ≠ EnforceResult.rateLimitExceeded r) ∧
  ((∀ t ∈ ts, consume (key t) t.rule ≠ .backendUnavailable) →
    ((∃ r, (enforceDurableRateLimit hash consume action targets).1 = .rateLimitExceeded r)
        ↔ ∃ t ∈ ts, ∃ retry, consume (key t) t.rule = .ok false retry) ∧
    ((∀ x ∈ blocked, 1 ≤ x) →
      ∀ r, (enforceDurableRateLimit hash consume action targets).1 = .rateLimitExceeded r →
        r ∈ blocked ∧ ∀ x ∈ blocked, x ≤ r))

/-- C4: `enforceDurableRateLimit` invokes `consume` once per normalized target;
if any consume call fails at the transport/store layer the whole call raises
the distinct "rate limiter unavailable" error (never `RateLimitExceededError`);
otherwise it raises `RateLimitExceededError` iff at least one target reports
not-allowed, and — given that every blocked target reports
`retry_after_seconds >= 1`, which the store guarantees via
`max(1, ceil(...))` — the carried value is exactly the maximum
`retryAfterSeconds` across the blocked targets. -/
theorem c4_enforce_durable_rate_limit_spec (hash : String → String)
    (consume : String → RateLimitRule → ConsumeOutcome)
    (action : String) (targets : List DurableRateLimitTarget) :
    C4Spec hash consume action targets := by
  simp only [C4Spec]
  by_cases hts : (processedTargets hash targets).isEmpty = true
  · have hnil : processedTargets hash targets = [] := by
      simpa using hts
    have henf : enforceDurableRateLimit hash consume action targets = (.passed, []) := by
      simp only [enforceDurableRateLimit]
      rw [if_pos hts]
    refine ⟨?_, ?_, ?_⟩
    · rintro ⟨t, ht, _⟩
      rw [hnil] at ht
      cases ht
    · intro r h
      cases h
    · intro _
      constructor
      · constructor
        · rintro ⟨r, hr⟩
          rw [henf] at hr
          cases hr
        · rintro ⟨t, ht, _⟩
          rw [hnil] at ht
          cases ht
      · intro _ r hr
        rw [henf] at hr
        cases hr
  · by_cases hbe :
        ((processedTargets hash targets).map
          (fun t => consume (bucketKeyOf (normalizeKeyPart action "action") t) t.rule)).any
          (fun r => r == .backendUnavailable) = true
    · have henf : (enforceDurableRateLimit hash consume action targets).1 = .limiterUnavailable := by
        simp only [enforceDurableRateLimit]
        rw [if_neg hts, if_pos hbe]
      have hex : ∃ t ∈ processedTargets hash targets,
          consume (bucketKeyOf (normalizeKeyPart action "action") t) t.rule
            = .backendUnavailable := by
        rw [List.any_eq_true] at hbe
        obtain ⟨out, hout, hbeq⟩ := hbe
        rw [List.mem_map] at hout
        obtain ⟨t, ht, rfl⟩ := hout
        exact ⟨t, ht, by simpa using hbeq⟩
      refine ⟨fun _ => henf, ?_, ?_⟩
      · intro r h
        cases h
      · intro hno
        obtain ⟨t, ht, hun⟩ := hex
        exact absurd hun (hno t ht)
    · have hnozero : ∀ t ∈ processedTargets hash targets,
          consume (bucketKeyOf (normalizeKeyPart action "action") t) t.rule
            ≠ .backendUnavailable := by
        intro t ht hun
        apply hbe
        rw [List.any_eq_true]
        exact ⟨_, List.mem_map_of_mem _ ht, by simp [hun]⟩
      by_cases hbl :
          (((processedTargets hash targets).map
            (fun t => consume (bucketKeyOf (normalizeKeyPart action "action") t) t.rule)).filterMap
            blockedRetry).isEmpty = true
      · have henf : (enforceDurableRateLimit hash consume action targets).1 = .passed := by
          simp only [enforceDurableRateLimit]
          rw [if_neg hts, if_neg (by simp [hbe]), if_pos hbl]
        have hblnil := List.isEmpty_iff.mp hbl
        refine ⟨?_, ?_, ?_⟩
        · rintro ⟨t, ht, hun⟩
          exact absurd hun (hnozero t ht)
        · intro r h
          cases h
        · intro _
          constructor
          · constructor
            · rintro ⟨r, hr⟩
              rw [henf] at hr
              cases hr
            · rintro ⟨t, ht, retry, hok⟩
              have : (ConsumeOutcome.ok false retry) ∈
                  (processedTargets hash targets).map
                    (fun t => consume (bucketKeyOf (normalizeKeyPart action "action") t) t.rule) := by
                rw [List.mem_map]
                exact ⟨t, ht, hok⟩
              have hmem := (blocked_mem_iff _ retry).mpr this
              rw [hblnil] at hmem
              cases hmem
          · intro _ r hr
            rw [henf] at hr
            cases hr
      · have henf : (enforceDurableRateLimit hash consume action targets).1
            = .rateLimitExceeded (max 1
                ((((processedTargets hash targets).map
                  (fun t => consume (bucketKeyOf (normalizeKeyPart action "action") t) t.rule)).filterMap
                  blockedRetry).foldl (fun acc r => max acc r) 1)) := by
          simp only [enforceDurableRateLimit]
          rw [if_neg hts, if_neg (by simp [hbe]), if_neg hbl]
        refine ⟨?_, ?_, ?_⟩
        · rintro ⟨t, ht, hun⟩
          exact absurd hun (hnozero t ht)
        · intro r h
          cases h
        · intro _
          have hne :
              (((processedTargets hash targets).map
                (fun t => consume (bucketKeyOf (normalizeKeyPart action "action") t) t.rule)).filterMap
                blockedRetry) ≠ [] := by
            intro h
            exact hbl (by rw [h]; rfl)
          constructor
          · constructor
            · intro _
              obtain ⟨x, hx⟩ := List.exists_mem_of_ne_nil _ hne
              have := (blocked_mem_iff _ x).mp hx
              rw [List.mem_map] at this
              obtain ⟨t, ht, hok⟩ := this
              exact ⟨t, ht, x, hok⟩
            · intro _
              exact ⟨_, henf⟩
          · intro hge r hr
            rw [henf] at hr
            injection hr with hr
            have h1le : (1 : Int) ≤
                ((((processedTargets hash targets).map
                  (fun t => consume (bucketKeyOf (normalizeKeyPart action "action") t) t.rule)).filterMap
                  blockedRetry).foldl (fun acc r => max acc r) 1) := foldlMax_init_le _ 1
            rw [max_eq_right h1le] at hr
            subst hr
            constructor
            · rcases foldlMax_mem_or
                (((processedTargets hash targets).map
                  (fun t => consume (bucketKeyOf (normalizeKeyPart action "action") t) t.rule)).filterMap
                  blockedRetry) 1 with hfold | hfold
              · obtain ⟨x, hx⟩ := List.exists_mem_of_ne_nil _ hne
                have hxle := foldlMax_mem_le _ 1 x hx
                have hxge := hge x hx
                rw [hfold] at hxle ⊢
                have : x = 1 := le_antisymm hxle hxge
                rw [← this]
                exact hx
              · exact hfold
            · intro x hx
              exact foldlMax_mem_le _ 1 x hx

/-- Witness for C4: one target whose consume outcome is blocked with
`retryAfterSeconds = 7`; the call raises `RateLimitExceededError` carrying 7,
the maximum over the blocked targets. -/
theorem c4_enforce_durable_rate_limit_spec_witness :
    (∀ t ∈ processedTargets (fun s => s)
        [⟨"user", "alice", ⟨3, 60000⟩, false⟩],
      (fun _ _ => ConsumeOutcome.ok false 7)
        (bucketKeyOf (normalizeKeyPart "act" "action") t) t.rule
        ≠ ConsumeOutcome.backendUnavailable) ∧
    (∀ x ∈ ((processedTargets (fun s => s)
          [⟨"user", "alice", ⟨3, 60000⟩, false⟩]).map
        (fun t => (fun _ _ => ConsumeOutcome.ok false 7)
          (bucketKeyOf (normalizeKeyPart "act" "action") t) t.rule)).filterMap blockedRetry,
      (1 : Int) ≤ x) ∧
    (enforceDurableRateLimit (fun s => s) (fun _ _ => ConsumeOutcome.ok false 7) "act"
        [⟨"user", "alice", ⟨3, 60000⟩, false⟩]).1 = .rateLimitExceeded 7 ∧
    (7 ∈ ((processedTargets (fun s => s)
          [⟨"user", "alice", ⟨3, 60000⟩, false⟩]).map
        (fun t => (fun _ _ => ConsumeOutcome.ok false 7)
          (bucketKeyOf (normalizeKeyPart "act" "action") t) t.rule)).filterMap blockedRetry ∧
      ∀ x ∈ ((processedTargets (fun s => s)
          [⟨"user", "alice", ⟨3, 60000⟩, false⟩]).map
        (fun t => (fun _ _ => ConsumeOutcome.ok false 7)
          (bucketKeyOf (normalizeKeyPart "act" "action") t) t.rule)).filterMap blockedRetry,
        x ≤ 7) := by
  have h := c4_enforce_durable_rate_limit_spec (fun s => s)
    (fun _ _ => ConsumeOutcome.ok false 7) "act" [⟨"user", "alice", ⟨3, 60000⟩, false⟩]
  exact ⟨by decide, by decide, by decide, (h.2.2 (by decide)).2 (by decide) 7 (by decide)⟩

/-! ### Row-level security model: profiles, vehicles, mods, images -/

/-- A `public.profiles` row (columns relevant to the policies).  `username`
is `none` for an unpublished profile. -/
structure Profile where
  id : String
  username : Option String
deriving DecidableEq

/-- A `public.vehicles` row (columns relevant to the policies). -/
structure Vehicle where
  id : String
  profile_id : String
  is_public : Bool
deriving DecidableEq

/-- A `public.mods` row (columns relevant to the policies). -/
structure ModRow where
  id : String
  vehicle_id : String
deriving DecidableEq

/-- A `public.images` row (columns relevant to the policies). -/
structure Image where
  id : String
  profile_id : String
  vehicle_id : Option String
  mod_id : Option String
deriving DecidableEq

/-- The four entity tables. -/
structure Db where
  profiles : List Profile
  vehicles : List Vehicle
  mods : List ModRow
  images : List Image
deriving DecidableEq

/-- The `images_exactly_one_parent` check constraint:
`(vehicle_id is not null and mod_id is null) or (vehicle_id is null and
mod_id is not null)`. -/
def images_exactly_one_parent (img : Image) : Bool :=
  (img.vehicle_id.isSome && img.mod_id.isNone) || (img.vehicle_id.isNone && img.mod_id.isSome)

/-- The `exists (select 1 from vehicles v where v.id = _ and v.profile_id = _)`
subquery shared by the image policies. -/
def vehicleOwnedBy (db : Db) (vid caller : String) : Bool :=
  db.vehicles.any (fun v => v.id == vid && v.profile_id == caller)

/-- The `exists (select 1 from mods m join vehicles v on v.id = m.vehicle_id
where m.id = _ and v.profile_id = _)` subquery shared by the image policies. -/
def modVehicleOwnedBy (db : Db) (mid caller : String) : Bool :=
  db.mods.any (fun m => m.id == mid
    && db.vehicles.any (fun v => v.id == m.vehicle_id && v.profile_id == caller))

/-- The `images_owner_insert` `with check` expression (identical to the
`images_owner_update` `using`/`with check` and `images_owner_select`/`delete`
`using` expressions): `images.profile_id = auth.uid()` and the referenced
parent — vehicle directly, or mod through its vehicle — is owned by
`auth.uid()`. -/
def images_owner_write_check (db : Db) (caller : String) (img : Image) : Bool :=
  img.profile_id == caller &&
  ((match img.vehicle_id with
    | some vid => vehicleOwnedBy db vid caller
    | none => false) ||
   (match img.mod_id with
    | some mid => modVehicleOwnedBy db mid caller
    | none => false))

/-- Root owner of the parent entity an image references: the owning profile of
its vehicle, or of its mod's vehicle. -/
def rootOwner (db : Db) (img : Image) : Option String :=
  match img.vehicle_id with
  | some vid => (db.vehicles.find? (fun v => v.id == vid)).map (fun v => v.profile_id)
  | none =>
      match img.mod_id with
      | some mid =>
          (db.mods.find? (fun m => m.id == mid)).bind
            (fun m => (db.vehicles.find? (fun v => v.id == m.vehicle_id)).map
              (fun v => v.profile_id))
      | none => none

/-- The `vehicles_owner_insert` `with check` expression: `exists (select 1
from profiles p where p.id = vehicles.profile_id and p.id = auth.uid())`. -/
def vehicles_owner_check (db : Db) (caller : String) (v : Vehicle) : Bool :=
  db.profiles.any (fun p => p.id == v.profile_id && p.id == caller)

/-- The `mods_owner_insert` `with check` expression (also the
`mods_owner_update` `using`/`with check`): `exists (select 1 from vehicles v
join profiles p on p.id = v.profile_id where v.id = mods.vehicle_id and
p.id = auth.uid())`. -/
def mods_owner_check (db : Db) (caller : String) (m : ModRow) : Bool :=
  db.vehicles.any (fun v => v.id == m.vehicle_id
    && db.profiles.any (fun p => p.id == v.profile_id && p.id == caller))

/-- States reachable through the RLS-guarded write path, starting from any
profile set with no vehicles/mods/images.  Inserts require the corresponding
policy `with check` to hold for the (authenticated) caller plus the
primary-key freshness the database enforces; vehicle updates require the
`using` check on the stored row and the `with check` on the replacement (the
foreign keys referencing `vehicles.id`/`mods.id` keep row ids stable, so the
replacement keeps the id); image writes additionally require the
`images_exactly_one_parent` constraint.  Deletes cascade whole subtrees and
cannot break parent links, so they are not modelled. -/
inductive Reach : Db → Prop where
  | init (profiles : List Profile) : Reach ⟨profiles, [], [], []⟩
  | insertVehicle {db : Db} (caller : String) (v : Vehicle) :
      Reach db →
      vehicles_owner_check db caller v = true →
      v.id ∉ db.vehicles.map Vehicle.id →
      Reach { db with vehicles := v :: db.vehicles }
  | insertMod {db : Db} (caller : String) (m : ModRow) :
      Reach db →
      mods_owner_check db caller m = true →
      m.id ∉ db.mods.map ModRow.id →
      Reach { db with mods := m :: db.mods }
  | insertImage {db : Db} (caller : String) (img : Image) :
      Reach db →
      images_owner_write_check db caller img = true →
      images_exactly_one_parent img = true →
      Reach { db with images := img :: db.images }
  | updateImage {db : Db} (caller : String) (old new_ : Image) :
      Reach db →
      old ∈ db.images →
      images_owner_write_check db caller old = true →
      images_owner_write_check db caller new_ = true →
      images_exactly_one_parent new_ = true →
      Reach { db with images := db.images.map (fun i => if i = old then new_ else i) }
  | updateVehicle {db : Db} (caller : String) (old new_ : Vehicle) :
      Reach db →
      old ∈ db.vehicles →
      vehicles_owner_check db caller old = true →
      vehicles_owner_check db caller new_ = true →
      new_.id = old.id →
      Reach { db with vehicles := db.vehicles.map (fun v => if v = old then new_ else v) }
  | updateMod {db : Db} (caller : String) (old new_ : ModRow) :
      Reach db →
      old ∈ db.mods →
      mods_owner_check db caller old = true →
      mods_owner_check db caller new_ = true →
      new_.id = old.id →
      Reach { db with mods := db.mods.map (fun m => if m = old then new_ else m) }

lemma nodup_key_inj {α κ : Type} (key : α → κ) :
    ∀ {l : List α}, (l.map key).Nodup →
      ∀ {a b : α}, a ∈ l → b ∈ l → key a = key b → a = b := by
  intro l
  induction l with
  | nil => intro _ a b ha; cases ha
  | cons x l ih =>
      intro hnd a b ha hb hk
      rw [List.map_cons, List.nodup_cons] at hnd
      obtain ⟨hx, htl⟩ := hnd
      rcases List.mem_cons.mp ha with rfl | ha' <;> rcases List.mem_cons.mp hb with rfl | hb'
      · rfl
      · rw [hk] at hx
        exact absurd (List.mem_map_of_mem key hb') hx
      · rw [← hk] at hx
        exact absurd (List.mem_map_of_mem key ha') hx
      · exact ih htl ha' hb' hk

lemma find?_of_any {α : Type} (key : α → String) (P : α → Bool) :
    ∀ {l : List α}, (l.map key).Nodup → ∀ (x : String),
      l.any (fun a => key a == x && P a) = true →
      ∃ a, l.find? (fun a => key a == x) = some a ∧ a ∈ l ∧ key a = x ∧ P a = true := by
  intro l hnd x h
  rw [List.any_eq_true] at h
  obtain ⟨b, hbmem, hb⟩ := h
  rw [Bool.and_eq_true, beq_iff_eq] at hb
  have hsome : (l.find? (fun a => key a == x)).isSome := by
    rw [List.find?_isSome]
    exact ⟨b, hbmem, by simp [hb.1]⟩
  obtain ⟨a, ha⟩ := Option.isSome_iff_exists.mp hsome
  have hamem := List.mem_of_find?_eq_some ha
  have hax : key a = x := by
    have := List.find?_some ha
    rwa [beq_iff_eq] at this
  have hab : a = b := nodup_key_inj key hnd hamem hbmem (by rw [hax, hb.1])
  exact ⟨a, ha, hamem, hax, hab ▸ hb.2⟩

lemma any_profile_owner {l : List Profile} {pid caller : String}
    (h : l.any (fun p => p.id == pid && p.id == caller) = true) : pid = caller := by
  rw [List.any_eq_true] at h
  obtain ⟨p, _, hp⟩ := h
  rw [Bool.and_eq_true, beq_iff_eq, beq_iff_eq] at hp
  rw [← hp.1, hp.2]

lemma vehicleOwnedBy_find {db : Db} {vid caller : String}
    (hv : (db.vehicles.map Vehicle.id).Nodup)
    (h : vehicleOwnedBy db vid caller = true) :
    (db.vehicles.find? (fun v => v.id == vid)).map (fun v => v.profile_id) = some caller := by
  obtain ⟨a, ha, _, _, hP⟩ :=
    find?_of_any Vehicle.id (fun v => v.profile_id == caller) hv vid (by
      simpa [vehicleOwnedBy] using h)
  rw [ha]
  simpa using hP

lemma modVehicleOwnedBy_root {db : Db} {mid caller : String}
    (hv : (db.vehicles.map Vehicle.id).Nodup) (hm : (db.mods.map ModRow.id).Nodup)
    (h : modVehicleOwnedBy db mid caller = true) :
    (db.mods.find? (fun m => m.id == mid)).bind
      (fun m => (db.vehicles.find? (fun v => v.id == m.vehicle_id)).map
        (fun v => v.profile_id)) = some caller := by
  obtain ⟨m0, hm0, _, _, hP⟩ :=
    find?_of_any ModRow.id
      (fun m => db.vehicles.any (fun v => v.id == m.vehicle_id && v.profile_id == caller))
      hm mid (by simpa [modVehicleOwnedBy] using h)
  rw [hm0, Option.some_bind]
  exact vehicleOwnedBy_find hv (by simpa [vehicleOwnedBy] using hP)

lemma write_check_profile {db : Db} {caller : String} {img : Image}
    (hchk : images_owner_write_check db caller img = true) :
    img.profile_id = caller := by
  rw [images_owner_write_check, Bool.and_eq_true, beq_iff_eq] at hchk
  exact hchk.1

lemma write_check_rootOwner {db : Db} {caller : String} {img : Image}
    (hv : (db.vehicles.map Vehicle.id).Nodup) (hm : (db.mods.map ModRow.id).Nodup)
    (hone : images_exactly_one_parent img = true)
    (hchk : images_owner_write_check db caller img = true) :
    img.profile_id = caller ∧ rootOwner db img = some caller := by
  rw [images_owner_write_check, Bool.and_eq_true, beq_iff_eq, Bool.or_eq_true] at hchk
  refine ⟨hchk.1, ?_⟩
  cases hvid : img.vehicle_id with
  | some vid =>
      have hmod : img.mod_id = none := by
        rw [images_exactly_one_parent, Bool.or_eq_true] at hone
        rcases hone with h | h
        · simpa using (Bool.and_eq_true _ _ |>.mp h).2
        · rw [Bool.and_eq_true] at h
          rw [hvid] at h
          simp at h
      have hown : vehicleOwnedBy db vid caller = true := by
        rcases hchk.2 with h | h
        · rwa [hvid] at h
        · rw [hmod] at h
          simp at h
      rw [rootOwner, hvid]
      exact vehicleOwnedBy_find hv hown
  | none =>
      cases hmid : img.mod_id with
      | some mid =>
          have hown : modVehicleOwnedBy db mid caller = true := by
            rcases hchk.2 with h | h
            · rw [hvid] at h
              simp at h
            · rwa [hmid] at h
          rw [rootOwner, hvid, hmid]
          exact modVehicleOwnedBy_root hv hm hown
      | none =>
          exfalso
          rcases hchk.2 with h | h
          · rw [hvid] at h
            simp at h
          · rw [hmid] at h
            simp at h

lemma write_check_rootOwner_no_vehicle {db : Db} {caller : String} {img : Image}
    (hv : (db.vehicles.map Vehicle.id).Nodup) (hm : (db.mods.map ModRow.id).Nodup)
    (hvid : img.vehicle_id = none)
    (hchk : images_owner_write_check db caller img = true) :
    rootOwner db img = some caller := by
  rw [images_owner_write_check, Bool.and_eq_true, Bool.or_eq_true] at hchk
  cases hmid : img.mod_id with
  | some mid =>
      have hown : modVehicleOwnedBy db mid caller = true := by
        rcases hchk.2 with h | h
        · rw [hvid] at h
          simp at h
        · rwa [hmid] at h
      rw [rootOwner, hvid, hmid]
      exact modVehicleOwnedBy_root hv hm hown
  | none =>
      exfalso
      rcases hchk.2 with h | h
      · rw [hvid] at h
        simp at h
      · rw [hmid] at h
        simp at h

lemma rootOwner_update_images (db : Db) (X : List Image) (img : Image) :
    rootOwner { db with images := X } img = rootOwner db img := rfl

lemma find?_eq_some_of_map_profile {l : List Vehicle} {x c : String}
    (h : (l.find? (fun v => v.id == x)).map (fun v => v.profile_id) = some c) :
    ∃ v0, l.find? (fun v => v.id == x) = some v0 ∧ v0 ∈ l ∧ v0.id = x ∧ v0.profile_id = c := by
  cases hf : l.find? (fun v => v.id == x) with
  | none => rw [hf] at h; cases h
  | some v0 =>
      rw [hf] at h
      injection h with h
      exact ⟨v0, rfl, List.mem_of_find?_eq_some hf, by simpa using List.find?_some hf, h⟩

lemma find?_mod_eq_some_of_bind {l : List ModRow} {f : ModRow → Option String} {x c : String}
    (h : (l.find? (fun m => m.id == x)).bind f = some c) :
    ∃ m0, l.find? (fun m => m.id == x) = some m0 ∧ m0 ∈ l ∧ m0.id = x ∧ f m0 = some c := by
  cases hf : l.find? (fun m => m.id == x) with
  | none => rw [hf] at h; cases h
  | some m0 =>
      rw [hf] at h
      exact ⟨m0, rfl, List.mem_of_find?_eq_some hf, by simpa using List.find?_some hf, h⟩

lemma rootOwner_cons_vehicle {db : Db} {v : Vehicle} {img : Image} {c : String}
    (hfresh : v.id ∉ db.vehicles.map Vehicle.id)
    (h : rootOwner db img = some c) :
    rootOwner { db with vehicles := v :: db.vehicles } img = some c := by
  cases hvid : img.vehicle_id with
  | some vid =>
      simp only [rootOwner, hvid] at h ⊢
      obtain ⟨v0, hv0, hv0mem, hv0id, hv0pr⟩ := find?_eq_some_of_map_profile h
      have hne : ¬(v.id == vid) = true := by
        intro hbeq
        rw [beq_iff_eq] at hbeq
        exact hfresh (hbeq ▸ hv0id ▸ List.mem_map_of_mem _ hv0mem)
      have hcons : (v :: db.vehicles).find? (fun w => w.id == vid)
          = db.vehicles.find? (fun w => w.id == vid) := List.find?_cons_of_neg _ hne
      rw [hcons, hv0]
      simpa using hv0pr
  | none =>
      cases hmid : img.mod_id with
      | some mid =>
          simp only [rootOwner, hvid, hmid] at h ⊢
          obtain ⟨m0, hm0, hm0mem, hm0id, hm0f⟩ := find?_mod_eq_some_of_bind h
          obtain ⟨v1, hv1, hv1mem, hv1id, hv1pr⟩ := find?_eq_some_of_map_profile hm0f
          have hne : ¬(v.id == m0.vehicle_id) = true := by
            intro hbeq
            rw [beq_iff_eq] at hbeq
            exact hfresh (hbeq ▸ hv1id ▸ List.mem_map_of_mem _ hv1mem)
          have hcons : (v :: db.vehicles).find? (fun w => w.id == m0.vehicle_id)
              = db.vehicles.find? (fun w => w.id == m0.vehicle_id) :=
            List.find?_cons_of_neg _ hne
          rw [hm0, Option.some_bind, hcons, hv1]
          simpa using hv1pr
      | none =>
          simp only [rootOwner, hvid, hmid] at h
          cases h

lemma rootOwner_cons_mod {db : Db} {m : ModRow} {img : Image} {c : String}
    (hfresh : m.id ∉ db.mods.map ModRow.id)
    (h : rootOwner db img = some c) :
    rootOwner { db with mods := m :: db.mods } img = some c := by
  cases hvid : img.vehicle_id with
  | some vid =>
      simp only [rootOwner, hvid] at h ⊢
      exact h
  | none =>
      cases hmid : img.mod_id with
      | some mid =>
          simp only [rootOwner, hvid, hmid] at h ⊢
          obtain ⟨m0, hm0, hm0mem, hm0id, hm0f⟩ := find?_mod_eq_some_of_bind h
          have hne : ¬(m.id == mid) = true := by
            intro hbeq
            rw [beq_iff_eq] at hbeq
            exact hfresh (hbeq ▸ hm0id ▸ List.mem_map_of_mem _ hm0mem)
          have hcons : (m :: db.mods).find? (fun n => n.id == mid)
              = db.mods.find? (fun n => n.id == mid) := List.find?_cons_of_neg _ hne
          rw [hcons, hm0, Option.some_bind]
          exact hm0f
      | none =>
          simp only [rootOwner, hvid, hmid] at h
          cases h

lemma find?_vehicles_map (l : List Vehicle) (f : Vehicle → Vehicle)
    (hid : ∀ v ∈ l, (f v).id = v.id) (hpr : ∀ v ∈ l, (f v).profile_id = v.profile_id)
    (x : String) :
    ((l.map f).find? (fun v => v.id == x)).map (fun v => v.profile_id)
      = (l.find? (fun v => v.id == x)).map (fun v => v.profile_id) := by
  induction l with
  | nil => rfl
  | cons a l ih =>
      have hfa := hid a (List.mem_cons_self a l)
      by_cases hax : (a.id == x) = true
      · have h1 : (f a :: l.map f).find? (fun v => v.id == x) = some (f a) :=
          List.find?_cons_of_pos _ (by rw [hfa]; exact hax)
        have h2 : (a :: l).find? (fun v => v.id == x) = some a :=
          List.find?_cons_of_pos _ hax
        rw [List.map_cons, h1, h2]
        simp [hpr a (List.mem_cons_self a l)]
      · have h1 : (f a :: l.map f).find? (fun v => v.id == x)
            = (l.map f).find? (fun v => v.id == x) :=
          List.find?_cons_of_neg _ (by rw [hfa]; exact hax)
        have h2 : (a :: l).find? (fun v => v.id == x) = l.find? (fun v => v.id == x) :=
          List.find?_cons_of_neg _ hax
        rw [List.map_cons, h1, h2]
        exact ih (fun v hv => hid v (List.mem_cons_of_mem a hv))
          (fun v hv => hpr v (List.mem_cons_of_mem a hv))

lemma find?_mods_map (l : List ModRow) (g : ModRow → ModRow)
    (hid : ∀ m ∈ l, (g m).id = m.id) (x : String) :
    (l.map g).find? (fun m => m.id == x) = (l.find? (fun m => m.id == x)).map g := by
  induction l with
  | nil => rfl
  | cons a l ih =>
      have hga := hid a (List.mem_cons_self a l)
      by_cases hax : (a.id == x) = true
      · have h1 : (g a :: l.map g).find? (fun m => m.id == x) = some (g a) :=
          List.find?_cons_of_pos _ (by rw [hga]; exact hax)
        have h2 : (a :: l).find? (fun m => m.id == x) = some a :=
          List.find?_cons_of_pos _ hax
        rw [List.map_cons, h1, h2, Option.map_some']
      · have h1 : (g a :: l.map g).find? (fun m => m.id == x)
            = (l.map g).find? (fun m => m.id == x) :=
          List.find?_cons_of_neg _ (by rw [hga]; exact hax)
        have h2 : (a :: l).find? (fun m => m.id == x) = l.find? (fun m => m.id == x) :=
          List.find?_cons_of_neg _ hax
        rw [List.map_cons, h1, h2]
        exact ih (fun m hm => hid m (List.mem_cons_of_mem a hm))

lemma nodup_map_key {α : Type} (key : α → String) (f : α → α) {l : List α}
    (hid : ∀ a ∈ l, key (f a) = key a) (h : (l.map key).Nodup) :
    ((l.map f).map key).Nodup := by
  rw [List.map_map]
  have he : l.map (key ∘ f) = l.map key := List.map_congr_left (fun a ha => hid a ha)
  rw [he]
  exact h

lemma rootOwner_map_vehicles {db : Db} {img : Image} {c : String} (f : Vehicle → Vehicle)
    (hid : ∀ v ∈ db.vehicles, (f v).id = v.id)
    (hpr : ∀ v ∈ db.vehicles, (f v).profile_id = v.profile_id)
    (h : rootOwner db img = some c) :
    rootOwner { db with vehicles := db.vehicles.map f } img = some c := by
  cases hvid : img.vehicle_id with
  | some vid =>
      simp only [rootOwner, hvid] at h ⊢
      rw [find?_vehicles_map db.vehicles f hid hpr vid]
      exact h
  | none =>
      cases hmid : img.mod_id with
      | some mid =>
          simp only [rootOwner, hvid, hmid] at h ⊢
          obtain ⟨m0, hm0, hm0mem, hm0id, hm0f⟩ := find?_mod_eq_some_of_bind h
          rw [hm0, Option.some_bind]
          rw [find?_vehicles_map db.vehicles f hid hpr m0.vehicle_id]
          exact hm0f
      | none =>
          simp only [rootOwner, hvid, hmid] at h
          cases h

lemma rootOwner_map_mods {db : Db} {img : Image} {c : String} (g : ModRow → ModRow)
    (hid : ∀ m ∈ db.mods, (g m).id = m.id)
    (hroot : ∀ m ∈ db.mods,
      (db.vehicles.find? (fun v => v.id == (g m).vehicle_id)).map (fun v => v.profile_id)
        = (db.vehicles.find? (fun v => v.id == m.vehicle_id)).map (fun v => v.profile_id))
    (h : rootOwner db img = some c) :
    rootOwner { db with mods := db.mods.map g } img = some c := by
  cases hvid : img.vehicle_id with
  | some vid =>
      simp only [rootOwner, hvid] at h ⊢
      exact h
  | none =>
      cases hmid : img.mod_id with
      | some mid =>
          simp only [rootOwner, hvid, hmid] at h ⊢
          obtain ⟨m0, hm0, hm0mem, hm0id, hm0f⟩ := find?_mod_eq_some_of_bind h
          rw [find?_mods_map db.mods g hid mid, hm0, Option.map_some', Option.some_bind]
          rw [hroot m0 hm0mem]
          exact hm0f
      | none =>
          simp only [rootOwner, hvid, hmid] at h
          cases h

lemma mods_owner_check_find {db : Db} {caller : String} {m : ModRow}
    (hv : (db.vehicles.map Vehicle.id).Nodup)
    (h : mods_owner_check db caller m = true) :
    (db.vehicles.find? (fun v => v.id == m.vehicle_id)).map (fun v => v.profile_id)
      = some caller := by
  rw [mods_owner_check] at h
  obtain ⟨v0, hv0, _, _, hP⟩ :=
    find?_of_any Vehicle.id
      (fun v => db.profiles.any (fun p => p.id == v.profile_id && p.id == caller))
      hv m.vehicle_id h
  rw [hv0, Option.map_some']
  rw [any_profile_owner hP]

/-- Invariant maintained by the RLS-guarded writes: primary keys are unique
and every image's `profile_id` is the root owner of its linked parent. -/
def DbInv (db : Db) : Prop :=
  (db.vehicles.map Vehicle.id).Nodup ∧ (db.mods.map ModRow.id).Nodup ∧
  ∀ img ∈ db.images, rootOwner db img = some img.profile_id

lemma reach_DbInv {db0 : Db} (h : Reach db0) : DbInv db0 := by
  induction h with
  | init ps =>
      exact ⟨List.nodup_nil, List.nodup_nil, by intro img h; cases h⟩
  | @insertVehicle db caller v hr hchk hfresh ih =>
      obtain ⟨hv, hm, himg⟩ := ih
      refine ⟨?_, hm, ?_⟩
      · rw [List.map_cons]
        exact List.nodup_cons.mpr ⟨hfresh, hv⟩
      · intro img hmem
        exact rootOwner_cons_vehicle hfresh (himg img hmem)
  | @insertMod db caller m hr hchk hfresh ih =>
      obtain ⟨hv, hm, himg⟩ := ih
      refine ⟨hv, ?_, ?_⟩
      · rw [List.map_cons]
        exact List.nodup_cons.mpr ⟨hfresh, hm⟩
      · intro img hmem
        exact rootOwner_cons_mod hfresh (himg img hmem)
  | @insertImage db caller img hr hchk hone ih =>
      obtain ⟨hv, hm, himg⟩ := ih
      refine ⟨hv, hm, ?_⟩
      intro i hi
      rw [rootOwner_update_images]
      rcases List.mem_cons.mp hi with rfl | hi'
      · have hso := write_check_rootOwner hv hm hone hchk
        rw [hso.1]
        exact hso.2
      · exact himg i hi'
  | @updateImage db caller old new_ hr hmem hold hnew hone ih =>
      obtain ⟨hv, hm, himg⟩ := ih
      refine ⟨hv, hm, ?_⟩
      intro i hi
      rw [rootOwner_update_images]
      rw [List.mem_map] at hi
      obtain ⟨j, hj, rfl⟩ := hi
      by_cases hje : j = old
      · rw [if_pos hje]
        have hso := write_check_rootOwner hv hm hone hnew
        rw [hso.1]
        exact hso.2
      · rw [if_neg hje]
        exact himg j hj
  | @updateVehicle db caller old new_ hr hmem hold hnew hids ih =>
      obtain ⟨hv, hm, himg⟩ := ih
      have holdp : old.profile_id = caller := by
        rw [vehicles_owner_check] at hold
        exact any_profile_owner hold
      have hnewp : new_.profile_id = caller := by
        rw [vehicles_owner_check] at hnew
        exact any_profile_owner hnew
      have hfid : ∀ v ∈ db.vehicles, (if v = old then new_ else v).id = v.id := by
        intro v _
        by_cases h : v = old
        · rw [if_pos h, hids, h]
        · rw [if_neg h]
      have hfpr : ∀ v ∈ db.vehicles,
          (if v = old then new_ else v).profile_id = v.profile_id := by
        intro v _
        by_cases h : v = old
        · rw [if_pos h, hnewp, h, holdp]
        · rw [if_neg h]
      refine ⟨nodup_map_key Vehicle.id _ hfid hv, hm, ?_⟩
      intro i hi
      exact rootOwner_map_vehicles _ hfid hfpr (himg i hi)
  | @updateMod db caller old new_ hr hmem hold hnew hids ih =>
      obtain ⟨hv, hm, himg⟩ := ih
      have hgid : ∀ m ∈ db.mods, (if m = old then new_ else m).id = m.id := by
        intro m _
        by_cases h : m = old
        · rw [if_pos h, hids, h]
        · rw [if_neg h]
      have hroot : ∀ m ∈ db.mods,
          (db.vehicles.find?
            (fun v => v.id == (if m = old then new_ else m).vehicle_id)).map
              (fun v => v.profile_id)
            = (db.vehicles.find? (fun v => v.id == m.vehicle_id)).map
              (fun v => v.profile_id) := by
        intro m _
        by_cases h : m = old
        · rw [if_pos h, h]
          rw [mods_owner_check_find hv hnew, mods_owner_check_find hv hold]
        · rw [if_neg h]
      refine ⟨hv, nodup_map_key ModRow.id _ hgid hm, ?_⟩
      intro i hi
      exact rootOwner_map_mods _ hgid hroot (himg i hi)

/-- C1: the `images` owner-write predicate accepts a write only if the image's
`profile_id` equals the caller AND the specific parent it references (its
vehicle, or its mod's vehicle) is owned by that caller; an insert whose
`profile_id` matches the caller but whose `mod_id` points to a mod of another
profile's vehicle is rejected; and consequently, in every state reachable
through the RLS-guarded writes, each image's `profile_id` equals the root
owner of its linked parent. -/
theorem c1_images_owner_write_transitive :
    (∀ (db : Db) (caller : String) (img : Image),
      (db.vehicles.map Vehicle.id).Nodup → (db.mods.map ModRow.id).Nodup →
      images_exactly_one_parent img = true →
      images_owner_write_check db caller img = true →
      img.profile_id = caller ∧ rootOwner db img = some caller) ∧
    (∀ (db : Db) (caller b : String) (img : Image),
      (db.vehicles.map Vehicle.id).Nodup → (db.mods.map ModRow.id).Nodup →
      img.vehicle_id = none → rootOwner db img = some b → b ≠ caller →
      images_owner_write_check db caller img = false) ∧
    (∀ db : Db, Reach db → ∀ img ∈ db.images, rootOwner db img = some img.profile_id) := by
  refine ⟨?_, ?_, ?_⟩
  · intro db caller img hv hm hone hchk
    exact write_check_rootOwner hv hm hone hchk
  · intro db caller b img hv hm hvid hro hne
    cases hchk : images_owner_write_check db caller img with
    | false => rfl
    | true =>
        exfalso
        have := write_check_rootOwner_no_vehicle hv hm hvid hchk
        rw [hro] at this
        injection this with this
        exact hne this
  · intro db h img hmem
    exact (reach_DbInv h).2.2 img hmem

/-- Witness for C1: caller `A` submits an image tagged `profile_id = A` whose
`mod_id` refers to a mod on `B`'s vehicle — the predicate rejects it; and a
small reachable state satisfies the ownership invariant. -/
theorem c1_images_owner_write_transitive_witness :
    ((([⟨"v1", "B", true⟩] : List Vehicle).map Vehicle.id).Nodup ∧
      (([⟨"m1", "v1"⟩] : List ModRow).map ModRow.id).Nodup ∧
      (⟨"i1", "A", none, some "m1"⟩ : Image).vehicle_id = none ∧
      rootOwner ⟨[⟨"A", none⟩, ⟨"B", none⟩], [⟨"v1", "B", true⟩], [⟨"m1", "v1"⟩], []⟩
        ⟨"i1", "A", none, some "m1"⟩ = some "B" ∧
      "B" ≠ "A") ∧
    images_owner_write_check
      ⟨[⟨"A", none⟩, ⟨"B", none⟩], [⟨"v1", "B", true⟩], [⟨"m1", "v1"⟩], []⟩
      "A" ⟨"i1", "A", none, some "m1"⟩ = false :=
  ⟨⟨by decide, by decide, by decide, by decide, by decide⟩,
    c1_images_owner_write_transitive.2.1
      ⟨[⟨"A", none⟩, ⟨"B", none⟩], [⟨"v1", "B", true⟩], [⟨"m1", "v1"⟩], []⟩
      "A" "B" ⟨"i1", "A", none, some "m1"⟩
      (by decide) (by decide) (by decide) (by decide) (by decide)⟩

/-! ### Public projections: `public_vehicles`, `public_mods`, `public_images` -/

/-- The `exists (select 1 from profiles p where p.id = _ and p.username is not
null)` subquery: the owning profile is published. -/
def profilePublished (db : Db) (pid : String) : Bool :=
  db.profiles.any (fun p => p.id == pid && p.username.isSome)

/-- The `public_vehicles` view body: `is_public = true` and the owning profile
is published. -/
def public_vehicles (db : Db) : List Vehicle :=
  db.vehicles.filter (fun v => v.is_public && profilePublished db v.profile_id)

/-- The `exists (select 1 from vehicles v join profiles p ... where v.id = _
and v.is_public and p.username is not null)` subquery shared by the mod and
image projections. -/
def vehiclePublicAt (db : Db) (vid : String) : Bool :=
  db.vehicles.any (fun v => v.id == vid && v.is_public && profilePublished db v.profile_id)

/-- The `public_mods` view body: the parent vehicle is public and its profile
published. -/
def public_mods (db : Db) : List ModRow :=
  db.mods.filter (fun m => vehiclePublicAt db m.vehicle_id)

/-- The `exists (... from mods m join vehicles v join profiles p where
m.id = _ ...)` subquery of the image projection. -/
def modPublicAt (db : Db) (mid : String) : Bool :=
  db.mods.any (fun m => m.id == mid && vehiclePublicAt db m.vehicle_id)

/-- The `public_images` view body: the linked vehicle, or the linked mod's
vehicle, is public with a published profile. -/
def public_images (db : Db) : List Image :=
  db.images.filter (fun i =>
    (match i.vehicle_id with
     | some vid => vehiclePublicAt db vid
     | none => false) ||
    (match i.mod_id with
     | some mid => modPublicAt db mid
     | none => false))

/-- An `update vehicles set is_public = b where id = vid`. -/
def setVehicleIsPublic (db : Db) (vid : String) (b : Bool) : Db :=
  { db with vehicles := db.vehicles.map (fun v => if v.id == vid then { v with is_public := b } else v) }

lemma setVehicleIsPublic_mem_id {db : Db} {vid : String} {b : Bool} {v' : Vehicle}
    (h : v' ∈ (setVehicleIsPublic db vid b).vehicles) (hid : v'.id = vid) :
    v'.is_public = b := by
  rw [setVehicleIsPublic] at h
  rw [List.mem_map] at h
  obtain ⟨w, hw, rfl⟩ := h
  by_cases hwid : (w.id == vid) = true
  · rw [if_pos hwid]
  · rw [if_neg hwid] at hid ⊢
    rw [beq_iff_eq] at hwid
    exact absurd hid hwid

lemma vehiclePublicAt_toggled (db : Db) (vid : String) :
    vehiclePublicAt (setVehicleIsPublic db vid false) vid = false := by
  rw [vehiclePublicAt, List.any_eq_false]
  intro v' hmem hconj
  rw [Bool.and_eq_true, Bool.and_eq_true, beq_iff_eq] at hconj
  have := setVehicleIsPublic_mem_id hmem hconj.1.1
  rw [hconj.1.2] at this
  cases this

/-- Full contract of the public projections: membership characterizations and
the immediate effect of toggling a vehicle private. -/
def C6Spec : Prop :=
  (∀ (db : Db) (v : Vehicle),
    v ∈ public_vehicles db ↔
      v ∈ db.vehicles ∧ v.is_public = true ∧ profilePublished db v.profile_id = true) ∧
  (∀ (db : Db) (m : ModRow),
    m ∈ public_mods db ↔ m ∈ db.mods ∧ vehiclePublicAt db m.vehicle_id = true) ∧
  (∀ (db : Db) (i : Image),
    i ∈ public_images db ↔
      i ∈ db.images ∧
      ((∃ vid, i.vehicle_id = some vid ∧ vehiclePublicAt db vid = true) ∨
       (∃ mid, i.mod_id = some mid ∧ modPublicAt db mid = true))) ∧
  (∀ (db : Db) (vid : String),
    (db.mods.map ModRow.id).Nodup →
    (∀ v ∈ public_vehicles (setVehicleIsPublic db vid false), v.id ≠ vid) ∧
    (∀ m ∈ public_mods (setVehicleIsPublic db vid false), m.vehicle_id ≠ vid) ∧
    (∀ i ∈ public_images (setVehicleIsPublic db vid false),
      images_exactly_one_parent i = true →
      i.vehicle_id ≠ some vid ∧
      ∀ m ∈ db.mods, i.mod_id = some m.id → m.vehicle_id ≠ vid))

/-- C6: a vehicle is publicly readable iff `is_public = true` and its owning
profile is published; a mod iff its parent vehicle satisfies that predicate;
an image iff the parent it links satisfies its public predicate; and setting a
vehicle's `is_public` to false immediately removes the vehicle, its mods and
its images from the public projections. -/
theorem c6_public_projections_spec : C6Spec := by
  refine ⟨?_, ?_, ?_, ?_⟩
  · intro db v
    rw [public_vehicles, List.mem_filter, Bool.and_eq_true]
  · intro db m
    rw [public_mods, List.mem_filter]
  · intro db i
    rw [public_images, List.mem_filter, Bool.or_eq_true]
    constructor
    · rintro ⟨hmem, hp⟩
      refine ⟨hmem, ?_⟩
      rcases hp with hp | hp
      · cases hvid : i.vehicle_id with
        | some vid =>
            simp only [hvid] at hp
            exact Or.inl ⟨vid, rfl, hp⟩
        | none =>
            simp only [hvid] at hp
            exact Bool.noConfusion hp
      · cases hmid : i.mod_id with
        | some mid =>
            simp only [hmid] at hp
            exact Or.inr ⟨mid, rfl, hp⟩
        | none =>
            simp only [hmid] at hp
            exact Bool.noConfusion hp
    · rintro ⟨hmem, hp⟩
      refine ⟨hmem, ?_⟩
      rcases hp with ⟨vid, hvid, hp⟩ | ⟨mid, hmid, hp⟩
      · exact Or.inl (by simp only [hvid]; exact hp)
      · exact Or.inr (by simp only [hmid]; exact hp)
  · intro db vid hndm
    have htog := vehiclePublicAt_toggled db vid
    refine ⟨?_, ?_, ?_⟩
    · intro v hv hvid
      rw [public_vehicles, List.mem_filter, Bool.and_eq_true] at hv
      obtain ⟨hmem, hpub, hprof⟩ := hv
      have := setVehicleIsPublic_mem_id hmem hvid
      rw [hpub] at this
      cases this
    · intro m hm hvid
      rw [public_mods, List.mem_filter] at hm
      rw [hvid, htog] at hm
      cases hm.2
    · intro i hi hone
      rw [public_images, List.mem_filter, Bool.or_eq_true] at hi
      obtain ⟨hmem, hp⟩ := hi
      rw [images_exactly_one_parent, Bool.or_eq_true, Bool.and_eq_true, Bool.and_eq_true] at hone
      constructor
      · intro hvid
        have hmid : i.mod_id = none := by
          rcases hone with ⟨_, h2⟩ | ⟨h1, _⟩
          · exact Option.isNone_iff_eq_none.mp h2
          · rw [hvid] at h1
            simp at h1
        rcases hp with hp | hp
        · simp only [hvid, htog] at hp
          exact Bool.noConfusion hp
        · simp only [hmid] at hp
          exact Bool.noConfusion hp
      · intro m hmmem hmid hmvid
        have hvidnone : i.vehicle_id = none := by
          rcases hone with ⟨_, h2⟩ | ⟨h1, _⟩
          · rw [hmid] at h2
            simp at h2
          · exact Option.isNone_iff_eq_none.mp h1
        rcases hp with hp | hp
        · simp only [hvidnone] at hp
          exact Bool.noConfusion hp
        · simp only [hmid] at hp
          rw [modPublicAt, List.any_eq_true] at hp
          obtain ⟨m2, hm2mem, hm2⟩ := hp
          rw [Bool.and_eq_true, beq_iff_eq] at hm2
          have hmm : m = m2 := nodup_key_inj ModRow.id hndm hmmem hm2mem (by rw [hm2.1])
          have hfalse := hm2.2
          rw [← hmm, hmvid, htog] at hfalse
          cases hfalse

/-- Witness for C6: toggling the only vehicle of a published profile private
removes it, its mod and its images from all three public projections. -/
theorem c6_public_projections_spec_witness :
    ((([⟨"m1", "v1"⟩] : List ModRow).map ModRow.id).Nodup) ∧
    (∀ v ∈ public_vehicles (setVehicleIsPublic
        ⟨[⟨"P", some "p"⟩], [⟨"v1", "P", true⟩], [⟨"m1", "v1"⟩],
          [⟨"i1", "P", none, some "m1"⟩, ⟨"i2", "P", some "v1", none⟩]⟩ "v1" false),
      v.id ≠ "v1") ∧
    (∀ m ∈ public_mods (setVehicleIsPublic
        ⟨[⟨"P", some "p"⟩], [⟨"v1", "P", true⟩], [⟨"m1", "v1"⟩],
          [⟨"i1", "P", none, some "m1"⟩, ⟨"i2", "P", some "v1", none⟩]⟩ "v1" false),
      m.vehicle_id ≠ "v1") ∧
    (∀ i ∈ public_images (setVehicleIsPublic
        ⟨[⟨"P", some "p"⟩], [⟨"v1", "P", true⟩], [⟨"m1", "v1"⟩],
          [⟨"i1", "P", none, some "m1"⟩, ⟨"i2", "P", some "v1", none⟩]⟩ "v1" false),
      images_exactly_one_parent i = true →
      i.vehicle_id ≠ some "v1" ∧
      ∀ m ∈ ([⟨"m1", "v1"⟩] : List ModRow), i.mod_id = some m.id → m.vehicle_id ≠ "v1") := by
  have h := c6_public_projections_spec.2.2.2
    ⟨[⟨"P", some "p"⟩], [⟨"v1", "P", true⟩], [⟨"m1", "v1"⟩],
      [⟨"i1", "P", none, some "m1"⟩, ⟨"i2", "P", some "v1", none⟩]⟩ "v1" (by decide)
  exact ⟨by decide, h.1, h.2.1, h.2.2⟩

/-! ### Storage path authorization: `mygarage_object_owner_can_write` -/

/-- `string_to_array(name, '/')` on the character list. -/
def splitOnSlashAux : List Char → List Char → List (List Char)
  | [], acc => [acc.reverse]
  | c :: rest, acc =>
      if c = '/' then acc.reverse :: splitOnSlashAux rest []
      else splitOnSlashAux rest (c :: acc)

/-- `string_to_array(name, '/')`. -/
def splitOnSlash (s : String) : List String :=
  (splitOnSlashAux s.data []).map String.mk

/-- `storage.foldername(name)`: every path segment except the last. -/
def storage_foldername (s : String) : List String := (splitOnSlash s).dropLast

/-- `storage.filename(name)`: the last path segment. -/
def storage_filename (s : String) : String := ((splitOnSlash s).getLast?).getD ""

/-- The regex `(^|/)\\.\\.(/|$)`: some slash-delimited segment is `..`. -/
def hasDotDotSegment (s : String) : Bool := (splitOnSlash s).any (fun seg => seg == "..")

/-- Character scan for the regex `//`. -/
def containsDoubleSlash : List Char → Bool
  | [] => false
  | [_] => false
  | a :: b :: rest => (a == '/' && b == '/') || containsDoubleSlash (b :: rest)

/-- The regex `//`: two adjacent slash characters. -/
def hasDoubleSlash (s : String) : Bool := containsDoubleSlash s.data

/-- Embedding of `public.mygarage_object_owner_can_write(object_name,
requester)` from migration 0008: the requester is non-null, the path has no
`..` segment and no `//`, exactly two folder levels with a non-empty
filename, and the first level routes to `avatars/{requester}`, an owned
vehicle, or a mod whose vehicle is owned. -/
def mygarage_object_owner_can_write (db : Db) (object_name : String)
    (requester : Option String) : Bool :=
  match requester with
  | none => false
  | some r =>
      !hasDotDotSegment object_name && !hasDoubleSlash object_name &&
      (match storage_foldername object_name with
       | [p1, p2] =>
           !(storage_filename object_name == "") &&
           ((p1 == "avatars" && p2 == r) ||
            (p1 == "vehicles" && db.vehicles.any (fun v => v.id == p2 && v.profile_id == r)) ||
            (p1 == "mods" && db.mods.any (fun m => m.id == p2
              && db.vehicles.any (fun v => v.id == m.vehicle_id && v.profile_id == r))))
       | _ => false)

/-- Soundness contract of the storage owner-write guard. -/
def C5Spec : Prop :=
  (∀ (db : Db) (name : String) (req : Option String),
    mygarage_object_owner_can_write db name req = true →
    hasDotDotSegment name = false ∧ hasDoubleSlash name = false ∧
    ∃ r, req = some r ∧ storage_filename name ≠ "" ∧
      ((storage_foldername name = ["avatars", r]) ∨
       (∃ p2 v, storage_foldername name = ["vehicles", p2] ∧
         v ∈ db.vehicles ∧ v.id = p2 ∧ v.profile_id = r) ∨
       (∃ p2 m v, storage_foldername name = ["mods", p2] ∧
         m ∈ db.mods ∧ m.id = p2 ∧
         v ∈ db.vehicles ∧ v.id = m.vehicle_id ∧ v.profile_id = r))) ∧
  (∀ (db : Db) (name : String) (req : Option String),
    hasDotDotSegment name = true ∨ hasDoubleSlash name = true →
    mygarage_object_owner_can_write db name req = false)

/-- C5: `object_owner_can_write(path, identity)` returns true only if the path
matches `avatars/{identity}/file`, `vehicles/{vehicle_id}/file` with the
vehicle owned by the identity, or `mods/{mod_id}/file` with the mod's vehicle
owned by the identity; and any path containing a `..` segment or `//` is
rejected unconditionally, regardless of ownership. -/
theorem c5_object_owner_can_write_spec : C5Spec := by
  constructor
  · intro db name req hchk
    cases req with
    | none => exact Bool.noConfusion hchk
    | some r =>
        cases hparts : storage_foldername name with
        | nil =>
            rw [mygarage_object_owner_can_write] at hchk
            simp only [hparts] at hchk
            simp at hchk
        | cons p1 tl =>
            cases tl with
            | nil =>
                rw [mygarage_object_owner_can_write] at hchk
                simp only [hparts] at hchk
                simp at hchk
            | cons p2 tl2 =>
                cases tl2 with
                | cons p3 tl3 =>
                    rw [mygarage_object_owner_can_write] at hchk
                    simp only [hparts] at hchk
                    simp at hchk
                | nil =>
                    rw [mygarage_object_owner_can_write] at hchk
                    simp only [hparts, Bool.and_eq_true, Bool.or_eq_true,
                      Bool.not_eq_true', beq_iff_eq, beq_eq_false_iff_ne,
                      List.any_eq_true] at hchk
                    obtain ⟨⟨hdd, hds⟩, hfn, hbranch⟩ := hchk
                    refine ⟨hdd, hds, r, rfl, hfn, ?_⟩
                    rcases hbranch with (⟨h1, h2⟩ | ⟨h1, v, hvmem, hvid, hvpr⟩)
                      | ⟨h1, m, hmmem, hmid, v, hvmem, hvid, hvpr⟩
                    · subst h1
                      subst h2
                      exact Or.inl rfl
                    · subst h1
                      exact Or.inr (Or.inl ⟨p2, v, rfl, hvmem, hvid, hvpr⟩)
                    · subst h1
                      exact Or.inr (Or.inr ⟨p2, m, v, rfl, hmmem, hmid,
                        hvmem, hvid, hvpr⟩)
  · intro db name req h
    cases req with
    | none => rfl
    | some r =>
        rw [mygarage_object_owner_can_write]
        rcases h with h | h
        · rw [h]
          rfl
        · rw [h]
          simp

/-- Witness for C5: an owned vehicle path is accepted, and the theorem then
yields the vehicles-pattern decomposition; a traversal path is rejected. -/
theorem c5_object_owner_can_write_spec_witness :
    mygarage_object_owner_can_write
      ⟨[], [⟨"v1", "alice", true⟩], [], []⟩ "vehicles/v1/pic.jpg" (some "alice") = true ∧
    (hasDotDotSegment "vehicles/v1/pic.jpg" = false ∧
      hasDoubleSlash "vehicles/v1/pic.jpg" = false ∧
      ∃ r, (some "alice" : Option String) = some r ∧
        storage_filename "vehicles/v1/pic.jpg" ≠ "" ∧
        ((storage_foldername "vehicles/v1/pic.jpg" = ["avatars", r]) ∨
         (∃ p2 v, storage_foldername "vehicles/v1/pic.jpg" = ["vehicles", p2] ∧
           v ∈ ([⟨"v1", "alice", true⟩] : List Vehicle) ∧ v.id = p2 ∧ v.profile_id = r) ∨
         (∃ p2 m v, storage_foldername "vehicles/v1/pic.jpg" = ["mods", p2] ∧
           m ∈ ([] : List ModRow) ∧ m.id = p2 ∧
           v ∈ ([⟨"v1", "alice", true⟩] : List Vehicle) ∧ v.id = m.vehicle_id ∧
           v.profile_id = r))) ∧
    (hasDotDotSegment "vehicles/../secret" = true ∨
      hasDoubleSlash "vehicles/../secret" = true) ∧
    mygarage_object_owner_can_write
      ⟨[], [⟨"v1", "alice", true⟩], [], []⟩ "vehicles/../secret" (some "alice") = false :=
  ⟨by decide,
    c5_object_owner_can_write_spec.1 ⟨[], [⟨"v1", "alice", true⟩], [], []⟩
      "vehicles/v1/pic.jpg" (some "alice") (by decide),
    by decide,
    c5_object_owner_can_write_spec.2 ⟨[], [⟨"v1", "alice", true⟩], [], []⟩
      "vehicles/../secret" (some "alice") (by decide)⟩

/-! ### Reorder protocol: `reorder_vehicle_swap` and `reorder_mod_swap` -/

/-- A `public.vehicles` row as seen by the reorder protocol.  `id` is a `Nat`
standing for the uuid (any linearly ordered key); `created_at` is an integer
timestamp. -/
structure VehicleRow where
  id : Nat
  profile_id : String
  sort_order : Int
  created_at : Int
deriving DecidableEq

/-- A `public.mods` row as seen by the reorder protocol. -/
structure ModOrderRow where
  id : Nat
  vehicle_id : Nat
  sort_order : Int
  created_at : Int
deriving DecidableEq

/-- The SQL neighbor predicate for vehicles: strictly earlier in the
`(sort_order, created_at, id)` ascending order. -/
def vKeyLt (a b : VehicleRow) : Bool :=
  a.sort_order < b.sort_order ||
  (a.sort_order == b.sort_order &&
    (a.created_at < b.created_at || (a.created_at == b.created_at && a.id < b.id)))

/-- The SQL neighbor predicate for mods. -/
def mKeyLt (a b : ModOrderRow) : Bool :=
  a.sort_order < b.sort_order ||
  (a.sort_order == b.sort_order &&
    (a.created_at < b.created_at || (a.created_at == b.created_at && a.id < b.id)))

/-- `order by sort_order desc, created_at desc, id desc limit 1`: the maximum
of the candidate set under the tuple order. -/
def pickMaxV : List VehicleRow → Option VehicleRow
  | [] => none
  | a :: l =>
      match pickMaxV l with
      | none => some a
      | some m => if vKeyLt a m then some m else some a

/-- `order by sort_order asc, created_at asc, id asc limit 1`: the minimum of
the candidate set under the tuple order. -/
def pickMinV : List VehicleRow → Option VehicleRow
  | [] => none
  | a :: l =>
      match pickMinV l with
      | none => some a
      | some m => if vKeyLt m a then some m else some a

/-- Maximum of a mod candidate set under the tuple order. -/
def pickMaxM : List ModOrderRow → Option ModOrderRow
  | [] => none
  | a :: l =>
      match pickMaxM l with
      | none => some a
      | some m => if mKeyLt a m then some m else some a

/-- Minimum of a mod candidate set under the tuple order. -/
def pickMinM : List ModOrderRow → Option ModOrderRow
  | [] => none
  | a :: l =>
      match pickMinM l with
      | none => some a
      | some m => if mKeyLt m a then some m else some a

/-- The final `update ... set sort_order = case ... end where id in (cur, nb)
and profile_id = caller` of `reorder_vehicle_swap`. -/
def swapVehicleSortOrders (db : List VehicleRow) (caller : String)
    (cur nb : VehicleRow) : List VehicleRow :=
  db.map (fun v =>
    if v.profile_id == caller && v.id == cur.id then { v with sort_order := nb.sort_order }
    else if v.profile_id == caller && v.id == nb.id then { v with sort_order := cur.sort_order }
    else v)

/-- Embedding of `public.reorder_vehicle_swap(p_vehicle_id, p_direction)`.
`db` is the caller-visible `vehicles` table, `caller` is `auth.uid()` (`none`
when unauthenticated).  Returns the `outcome` text and the table after the
transaction, or the raised error for an invalid direction.  The advisory lock
serializes concurrent calls per owner; a single call is the one modelled
transition. -/
def reorder_vehicle_swap (db : List VehicleRow) (caller : Option String)
    (p_vehicle_id : Nat) (p_direction : String) :
    Except String (String × List VehicleRow) :=
  if !(p_direction == "up" || p_direction == "down") then
    .error "invalid direction"
  else
    match caller with
    | none => .ok ("not_found", db)
    | some u =>
        match db.find? (fun v => v.id == p_vehicle_id && v.profile_id == u) with
        | none => .ok ("not_found", db)
        | some cur =>
            let nb? :=
              if p_direction == "up" then
                pickMaxV (db.filter (fun v => v.profile_id == u && vKeyLt v cur))
              else
                pickMinV (db.filter (fun v => v.profile_id == u && vKeyLt cur v))
            match nb? with
            | none => .ok ("boundary", db)
            | some nb => .ok ("moved", swapVehicleSortOrders db u cur nb)

/-- The final swap update of `reorder_mod_swap`, scoped to
`id in (cur, nb) and vehicle_id = p_vehicle_id`. -/
def swapModSortOrders (mods : List ModOrderRow) (p_vehicle_id : Nat)
    (cur nb : ModOrderRow) : List ModOrderRow :=
  mods.map (fun m =>
    if m.vehicle_id == p_vehicle_id && m.id == cur.id then { m with sort_order := nb.sort_order }
    else if m.vehicle_id == p_vehicle_id && m.id == nb.id then { m with sort_order := cur.sort_order }
    else m)

/-- Embedding of `public.reorder_mod_swap(p_vehicle_id, p_mod_id,
p_direction)`.  `vehicles` carries ownership; only the `mods` table is
written. -/
def reorder_mod_swap (vehicles : List VehicleRow) (mods : List ModOrderRow)
    (caller : Option String) (p_vehicle_id p_mod_id : Nat) (p_direction : String) :
    Except String (String × List ModOrderRow) :=
  if !(p_direction == "up" || p_direction == "down") then
    .error "invalid direction"
  else
    match caller with
    | none => .ok ("not_found", mods)
    | some u =>
        match mods.find? (fun m => m.id == p_mod_id && m.vehicle_id == p_vehicle_id
          && vehicles.any (fun v => v.id == m.vehicle_id && v.profile_id == u)) with
        | none => .ok ("not_found", mods)
        | some cur =>
            let nb? :=
              if p_direction == "up" then
                pickMaxM (mods.filter (fun m => m.vehicle_id == p_vehicle_id && mKeyLt m cur))
              else
                pickMinM (mods.filter (fun m => m.vehicle_id == p_vehicle_id && mKeyLt cur m))
            match nb? with
            | none => .ok ("boundary", mods)
            | some nb => .ok ("moved", swapModSortOrders mods p_vehicle_id cur nb)

lemma find?_current_eq {db : List VehicleRow} {u : String} {x : VehicleRow}
    (hnd : (db.map VehicleRow.id).Nodup) (hx : x ∈ db) (hpu : x.profile_id = u) :
    db.find? (fun v => v.id == x.id && v.profile_id == u) = some x := by
  have hsome : (db.find? (fun v => v.id == x.id && v.profile_id == u)).isSome := by
    rw [List.find?_isSome]
    exact ⟨x, hx, by simp [hpu]⟩
  obtain ⟨z, hz⟩ := Option.isSome_iff_exists.mp hsome
  have hzmem := List.mem_of_find?_eq_some hz
  have hzpred := List.find?_some hz
  rw [Bool.and_eq_true, beq_iff_eq] at hzpred
  have : z = x := nodup_key_inj VehicleRow.id hnd hzmem hx hzpred.1
  rw [hz, this]

/-- C7: for either reorder RPC with a valid direction, a missing target row,
a row not owned by the caller, and an unauthenticated caller all produce the
single outcome `not_found` with the table unchanged — the three cases are
indistinguishable to the caller. -/
theorem c7_reorder_not_found_indistinguishable :
    (∀ (db : List VehicleRow) (caller : Option String) (vid : Nat) (dir : String),
      dir = "up" ∨ dir = "down" →
      (caller = none ∨ ∀ v ∈ db, ¬(v.id = vid ∧ some v.profile_id = caller)) →
      reorder_vehicle_swap db caller vid dir = .ok ("not_found", db)) ∧
    (∀ (vehicles : List VehicleRow) (mods : List ModOrderRow) (caller : Option String)
        (pvid mid : Nat) (dir : String),
      dir = "up" ∨ dir = "down" →
      (caller = none ∨ ∀ m ∈ mods, ¬(m.id = mid ∧ m.vehicle_id = pvid ∧
        ∃ v ∈ vehicles, v.id = m.vehicle_id ∧ some v.profile_id = caller)) →
      reorder_mod_swap vehicles mods caller pvid mid dir = .ok ("not_found", mods)) := by
  constructor
  · intro db caller vid dir hdir hnf
    have hdirb : (!(dir == "up" || dir == "down")) = false := by
      rcases hdir with rfl | rfl <;> rfl
    rw [reorder_vehicle_swap.eq_def, if_neg (by rw [hdirb]; exact Bool.false_ne_true)]
    cases caller with
    | none => rfl
    | some u =>
        have hfind : db.find? (fun v => v.id == vid && v.profile_id == u) = none := by
          rw [List.find?_eq_none]
          intro v hv hpred
          rw [Bool.and_eq_true, beq_iff_eq, beq_iff_eq] at hpred
          rcases hnf with h | h
          · cases h
          · exact h v hv ⟨hpred.1, by rw [hpred.2]⟩
        simp only [hfind]
  · intro vehicles mods caller pvid mid dir hdir hnf
    have hdirb : (!(dir == "up" || dir == "down")) = false := by
      rcases hdir with rfl | rfl <;> rfl
    rw [reorder_mod_swap.eq_def, if_neg (by rw [hdirb]; exact Bool.false_ne_true)]
    cases caller with
    | none => rfl
    | some u =>
        have hfind : mods.find? (fun m => m.id == mid && m.vehicle_id == pvid
            && vehicles.any (fun v => v.id == m.vehicle_id && v.profile_id == u)) = none := by
          rw [List.find?_eq_none]
          intro m hm hpred
          rw [Bool.and_eq_true, Bool.and_eq_true, beq_iff_eq, beq_iff_eq,
            List.any_eq_true] at hpred
          obtain ⟨⟨h1, h2⟩, v, hvmem, hv⟩ := hpred
          rw [Bool.and_eq_true, beq_iff_eq, beq_iff_eq] at hv
          rcases hnf with h | h
          · cases h
          · exact h m hm ⟨h1, h2, v, hvmem, hv.1, by rw [hv.2]⟩
        simp only [hfind]

/-- Witness for C7: an authenticated caller probing another owner's vehicle
and an unauthenticated mod reorder both get `not_found` with no change. -/
theorem c7_reorder_not_found_indistinguishable_witness :
    (("up" = "up" ∨ "up" = "down") ∧
      ((some "A" : Option String) = none ∨
        ∀ v ∈ [(⟨1, "B", 0, 0⟩ : VehicleRow)], ¬(v.id = 1 ∧ some v.profile_id = some "A")) ∧
      reorder_vehicle_swap [(⟨1, "B", 0, 0⟩ : VehicleRow)] (some "A") 1 "up"
        = .ok ("not_found", [(⟨1, "B", 0, 0⟩ : VehicleRow)])) ∧
    (reorder_mod_swap [(⟨1, "B", 0, 0⟩ : VehicleRow)] [(⟨2, 1, 0, 0⟩ : ModOrderRow)]
        none 1 2 "down" = .ok ("not_found", [(⟨2, 1, 0, 0⟩ : ModOrderRow)])) :=
  ⟨⟨Or.inl rfl, Or.inr (by decide),
    c7_reorder_not_found_indistinguishable.1 [⟨1, "B", 0, 0⟩] (some "A") 1 "up"
      (Or.inl rfl) (Or.inr (by decide))⟩,
   c7_reorder_not_found_indistinguishable.2 [⟨1, "B", 0, 0⟩] [⟨2, 1, 0, 0⟩]
      none 1 2 "down" (Or.inr rfl) (Or.inl rfl)⟩

/-- C8: reordering the first sibling up, or the last sibling down, returns
`boundary` and leaves the table — in particular every row's `sort_order` —
unchanged. -/
theorem c8_reorder_boundary_frame :
    ∀ (db : List VehicleRow) (u : String) (x : VehicleRow),
      (db.map VehicleRow.id).Nodup → x ∈ db → x.profile_id = u →
      ((∀ y ∈ db, y.profile_id = u → vKeyLt y x = false) →
        reorder_vehicle_swap db (some u) x.id "up" = .ok ("boundary", db)) ∧
      ((∀ y ∈ db, y.profile_id = u → vKeyLt x y = false) →
        reorder_vehicle_swap db (some u) x.id "down" = .ok ("boundary", db)) := by
  intro db u x hnd hx hpu
  have hf := find?_current_eq hnd hx hpu
  constructor
  · intro hfirst
    have hcand : db.filter (fun v => v.profile_id == u && vKeyLt v x) = [] := by
      rw [List.filter_eq_nil_iff]
      intro v hv hpred
      rw [Bool.and_eq_true, beq_iff_eq] at hpred
      have := hfirst v hv hpred.1
      rw [this] at hpred
      exact Bool.noConfusion hpred.2
    rw [reorder_vehicle_swap.eq_def, if_neg (by decide)]
    simp only [hf, hcand]
    rfl
  · intro hlast
    have hcand : db.filter (fun v => v.profile_id == u && vKeyLt x v) = [] := by
      rw [List.filter_eq_nil_iff]
      intro v hv hpred
      rw [Bool.and_eq_true, beq_iff_eq] at hpred
      have := hlast v hv hpred.1
      rw [this] at hpred
      exact Bool.noConfusion hpred.2
    rw [reorder_vehicle_swap.eq_def, if_neg (by decide)]
    simp only [hf, hcand]
    rfl

/-- Witness for C8: in a two-vehicle garage the first vehicle cannot move up
and the table is untouched. -/
theorem c8_reorder_boundary_frame_witness :
    (([(⟨1, "A", 0, 0⟩ : VehicleRow), ⟨2, "A", 1, 0⟩].map VehicleRow.id).Nodup ∧
      (⟨1, "A", 0, 0⟩ : VehicleRow) ∈ [(⟨1, "A", 0, 0⟩ : VehicleRow), ⟨2, "A", 1, 0⟩] ∧
      (⟨1, "A", 0, 0⟩ : VehicleRow).profile_id = "A" ∧
      (∀ y ∈ [(⟨1, "A", 0, 0⟩ : VehicleRow), ⟨2, "A", 1, 0⟩], y.profile_id = "A" →
        vKeyLt y ⟨1, "A", 0, 0⟩ = false)) ∧
    reorder_vehicle_swap [(⟨1, "A", 0, 0⟩ : VehicleRow), ⟨2, "A", 1, 0⟩] (some "A") 1 "up"
      = .ok ("boundary", [(⟨1, "A", 0, 0⟩ : VehicleRow), ⟨2, "A", 1, 0⟩]) :=
  ⟨⟨by decide, by decide, by decide, by decide⟩,
    (c8_reorder_boundary_frame [⟨1, "A", 0, 0⟩, ⟨2, "A", 1, 0⟩] "A" ⟨1, "A", 0, 0⟩
      (by decide) (by decide) (by decide)).1 (by decide)⟩

/-- Counterexample to C9 as stated: with colliding `sort_order` values the
round trip does not restore the relative order of the two swapped siblings.
Sibling rows (id, sort_order, created_at): z = (1, 0, 5), y = (2, 0, 10),
x = (3, 1, 0).  `reorder(x, up)` swaps the `sort_order` of x with its
up-neighbor y, after which the `(sort_order, created_at, id)` tie-break puts
x *before* z and y; `reorder(x, down)` then selects z (not y) and swaps two
equal `sort_order` values, changing nothing.  Before the round trip y
preceded x; afterwards x precedes y — both calls returned `moved`. -/
theorem c9_round_trip_counterexample :
    reorder_vehicle_swap
        [(⟨1, "u", 0, 5⟩ : VehicleRow), ⟨2, "u", 0, 10⟩, ⟨3, "u", 1, 0⟩]
        (some "u") 3 "up"
      = .ok ("moved", [(⟨1, "u", 0, 5⟩ : VehicleRow), ⟨2, "u", 1, 10⟩, ⟨3, "u", 0, 0⟩]) ∧
    reorder_vehicle_swap
        [(⟨1, "u", 0, 5⟩ : VehicleRow), ⟨2, "u", 1, 10⟩, ⟨3, "u", 0, 0⟩]
        (some "u") 3 "down"
      = .ok ("moved", [(⟨1, "u", 0, 5⟩ : VehicleRow), ⟨2, "u", 1, 10⟩, ⟨3, "u", 0, 0⟩]) ∧
    vKeyLt ⟨2, "u", 0, 10⟩ ⟨3, "u", 1, 0⟩ = true ∧
    vKeyLt ⟨3, "u", 0, 0⟩ ⟨2, "u", 1, 10⟩ = true :=
  ⟨rfl, rfl, rfl, rfl⟩

lemma vKeyLt_iff (a b : VehicleRow) :
    vKeyLt a b = true ↔
      (a.sort_order < b.sort_order ∨
       (a.sort_order = b.sort_order ∧
        (a.created_at < b.created_at ∨
         (a.created_at = b.created_at ∧ a.id < b.id)))) := by
  simp [vKeyLt, Bool.or_eq_true, Bool.and_eq_true, beq_iff_eq, decide_eq_true_eq]

lemma vKeyLt_false_iff (a b : VehicleRow) :
    vKeyLt a b = false ↔
      ¬(a.sort_order < b.sort_order ∨
        (a.sort_order = b.sort_order ∧
         (a.created_at < b.created_at ∨
          (a.created_at = b.created_at ∧ a.id < b.id)))) := by
  rw [← vKeyLt_iff]
  cases h : vKeyLt a b <;> simp

lemma vKeyLt_irrefl (a : VehicleRow) : vKeyLt a a = false := by
  rw [vKeyLt_false_iff]
  omega

lemma vKeyLt_asymm {a b : VehicleRow} (h : vKeyLt a b = true) : vKeyLt b a = false := by
  rw [vKeyLt_iff] at h
  rw [vKeyLt_false_iff]
  omega

lemma vKeyLt_not_trans {a b c : VehicleRow}
    (h1 : vKeyLt a b = false) (h2 : vKeyLt b c = false) : vKeyLt a c = false := by
  rw [vKeyLt_false_iff] at h1 h2 ⊢
  omega

lemma pickMaxV_cons_isSome (a : VehicleRow) (l : List VehicleRow) :
    (pickMaxV (a :: l)).isSome = true := by
  rw [pickMaxV]
  cases pickMaxV l with
  | none => rfl
  | some m =>
      show (if vKeyLt a m = true then some m else some a).isSome = true
      split <;> rfl

lemma pickMinV_cons_isSome (a : VehicleRow) (l : List VehicleRow) :
    (pickMinV (a :: l)).isSome = true := by
  rw [pickMinV]
  cases pickMinV l with
  | none => rfl
  | some m =>
      show (if vKeyLt m a = true then some m else some a).isSome = true
      split <;> rfl

lemma pickMaxV_spec : ∀ {l : List VehicleRow} {m : VehicleRow},
    pickMaxV l = some m → m ∈ l ∧ ∀ v ∈ l, vKeyLt m v = false := by
  intro l
  induction l with
  | nil => intro m h; cases h
  | cons a l ih =>
      intro m h
      cases hrec : pickMaxV l with
      | none =>
          simp only [pickMaxV, hrec] at h
          injection h with h
          subst h
          refine ⟨List.mem_cons_self _ _, ?_⟩
          intro v hv
          rcases List.mem_cons.mp hv with rfl | hv2
          · exact vKeyLt_irrefl _
          · cases l with
            | nil => cases hv2
            | cons b t =>
                exfalso
                have hs := pickMaxV_cons_isSome b t
                rw [hrec] at hs
                cases hs
      | some m2 =>
          simp only [pickMaxV, hrec] at h
          by_cases hlt : vKeyLt a m2 = true
          · rw [if_pos hlt] at h
            injection h with h
            subst h
            obtain ⟨hmem, hmax⟩ := ih hrec
            refine ⟨List.mem_cons_of_mem a hmem, ?_⟩
            intro v hv
            rcases List.mem_cons.mp hv with rfl | hv2
            · exact vKeyLt_asymm hlt
            · exact hmax v hv2
          · rw [if_neg hlt] at h
            injection h with h
            subst h
            obtain ⟨hmem, hmax⟩ := ih hrec
            refine ⟨List.mem_cons_self _ _, ?_⟩
            intro v hv
            rcases List.mem_cons.mp hv with rfl | hv2
            · exact vKeyLt_irrefl _
            · exact vKeyLt_not_trans (Bool.of_not_eq_true hlt) (hmax v hv2)

lemma pickMinV_spec : ∀ {l : List VehicleRow} {m : VehicleRow},
    pickMinV l = some m → m ∈ l ∧ ∀ v ∈ l, vKeyLt v m = false := by
  intro l
  induction l with
  | nil => intro m h; cases h
  | cons a l ih =>
      intro m h
      cases hrec : pickMinV l with
      | none =>
          simp only [pickMinV, hrec] at h
          injection h with h
          subst h
          refine ⟨List.mem_cons_self _ _, ?_⟩
          intro v hv
          rcases List.mem_cons.mp hv with rfl | hv2
          · exact vKeyLt_irrefl _
          · cases l with
            | nil => cases hv2
            | cons b t =>
                exfalso
                have hs := pickMinV_cons_isSome b t
                rw [hrec] at hs
                cases hs
      | some m2 =>
          simp only [pickMinV, hrec] at h
          by_cases hlt : vKeyLt m2 a = true
          · rw [if_pos hlt] at h
            injection h with h
            subst h
            obtain ⟨hmem, hmin⟩ := ih hrec
            refine ⟨List.mem_cons_of_mem a hmem, ?_⟩
            intro v hv
            rcases List.mem_cons.mp hv with rfl | hv2
            · exact vKeyLt_asymm hlt
            · exact hmin v hv2
          · rw [if_neg hlt] at h
            injection h with h
            subst h
            obtain ⟨hmem, hmin⟩ := ih hrec
            refine ⟨List.mem_cons_self _ _, ?_⟩
            intro v hv
            rcases List.mem_cons.mp hv with rfl | hv2
            · exact vKeyLt_irrefl _
            · exact vKeyLt_not_trans (hmin v hv2) (Bool.of_not_eq_true hlt)

lemma reorder_up_moved_inv {db : List VehicleRow} {u : String} {vid : Nat}
    {db' : List VehicleRow}
    (h : reorder_vehicle_swap db (some u) vid "up" = .ok ("moved", db')) :
    ∃ cur nb, db.find? (fun v => v.id == vid && v.profile_id == u) = some cur ∧
      pickMaxV (db.filter (fun v => v.profile_id == u && vKeyLt v cur)) = some nb ∧
      db' = swapVehicleSortOrders db u cur nb := by
  rw [reorder_vehicle_swap.eq_def, if_neg (by decide)] at h
  cases hfind : db.find? (fun v => v.id == vid && v.profile_id == u) with
  | none =>
      simp only [hfind] at h
      injection h with h
      injection h with h1 h2
      exact absurd h1 (by decide)
  | some cur =>
      simp only [hfind] at h
      have hup : (if ("up" == "up" : Bool) then
            pickMaxV (db.filter (fun v => v.profile_id == u && vKeyLt v cur))
          else pickMinV (db.filter (fun v => v.profile_id == u && vKeyLt cur v)))
          = pickMaxV (db.filter (fun v => v.profile_id == u && vKeyLt v cur)) :=
        if_pos rfl
      rw [hup] at h
      cases hpick : pickMaxV (db.filter (fun v => v.profile_id == u && vKeyLt v cur)) with
      | none =>
          simp only [hpick] at h
          injection h with h
          injection h with h1 h2
          exact absurd h1 (by decide)
      | some nb =>
          simp only [hpick] at h
          injection h with h
          injection h with h1 h2
          exact ⟨cur, nb, rfl, hpick, h2.symm⟩

lemma reorder_down_moved_intro {db : List VehicleRow} {u : String} {vid : Nat}
    {cur nb : VehicleRow}
    (hfind : db.find? (fun v => v.id == vid && v.profile_id == u) = some cur)
    (hpick : pickMinV (db.filter (fun v => v.profile_id == u && vKeyLt cur v)) = some nb) :
    reorder_vehicle_swap db (some u) vid "down"
      = .ok ("moved", swapVehicleSortOrders db u cur nb) := by
  rw [reorder_vehicle_swap.eq_def, if_neg (by decide)]
  simp only [hfind]
  have hdn : (if ("down" == "up" : Bool) then
        pickMaxV (db.filter (fun v => v.profile_id == u && vKeyLt v cur))
      else pickMinV (db.filter (fun v => v.profile_id == u && vKeyLt cur v)))
      = pickMinV (db.filter (fun v => v.profile_id == u && vKeyLt cur v)) :=
    if_neg (by decide)
  rw [hdn, hpick]

lemma reorder_down_moved_inv {db : List VehicleRow} {u : String} {vid : Nat}
    {db' : List VehicleRow}
    (h : reorder_vehicle_swap db (some u) vid "down" = .ok ("moved", db')) :
    ∃ cur nb, db.find? (fun v => v.id == vid && v.profile_id == u) = some cur ∧
      pickMinV (db.filter (fun v => v.profile_id == u && vKeyLt cur v)) = some nb ∧
      db' = swapVehicleSortOrders db u cur nb := by
  rw [reorder_vehicle_swap.eq_def, if_neg (by decide)] at h
  cases hfind : db.find? (fun v => v.id == vid && v.profile_id == u) with
  | none =>
      simp only [hfind] at h
      injection h with h
      injection h with h1 h2
      exact absurd h1 (by decide)
  | some cur =>
      simp only [hfind] at h
      have hdn : (if ("down" == "up" : Bool) then
            pickMaxV (db.filter (fun v => v.profile_id == u && vKeyLt v cur))
          else pickMinV (db.filter (fun v => v.profile_id == u && vKeyLt cur v)))
          = pickMinV (db.filter (fun v => v.profile_id == u && vKeyLt cur v)) :=
        if_neg (by decide)
      rw [hdn] at h
      cases hpick : pickMinV (db.filter (fun v => v.profile_id == u && vKeyLt cur v)) with
      | none =>
          simp only [hpick] at h
          injection h with h
          injection h with h1 h2
          exact absurd h1 (by decide)
      | some nb =>
          simp only [hpick] at h
          injection h with h
          injection h with h1 h2
          exact ⟨cur, nb, rfl, hpick, h2.symm⟩

lemma find?_vrows_map (l : List VehicleRow) (f : VehicleRow → VehicleRow)
    (p : VehicleRow → Bool) (hp : ∀ v, p (f v) = p v) :
    (l.map f).find? p = (l.find? p).map f := by
  induction l with
  | nil => rfl
  | cons a l ih =>
      by_cases hpa : p a = true
      · have h1 : (f a :: l.map f).find? p = some (f a) :=
          List.find?_cons_of_pos _ (by rw [hp a]; exact hpa)
        have h2 : (a :: l).find? p = some a := List.find?_cons_of_pos _ hpa
        rw [List.map_cons, h1, h2, Option.map_some']
      · have h1 : (f a :: l.map f).find? p = (l.map f).find? p :=
          List.find?_cons_of_neg _ (by rw [hp a]; exact hpa)
        have h2 : (a :: l).find? p = l.find? p := List.find?_cons_of_neg _ hpa
        rw [List.map_cons, h1, h2, ih]

lemma swap_fun_id (u : String) (cur nb v : VehicleRow) :
    (if v.profile_id == u && v.id == cur.id then { v with sort_order := nb.sort_order }
     else if v.profile_id == u && v.id == nb.id then { v with sort_order := cur.sort_order }
     else v).id = v.id := by
  split
  · rfl
  · split
    · rfl
    · rfl

lemma swap_fun_profile (u : String) (cur nb v : VehicleRow) :
    (if v.profile_id == u && v.id == cur.id then { v with sort_order := nb.sort_order }
     else if v.profile_id == u && v.id == nb.id then { v with sort_order := cur.sort_order }
     else v).profile_id = v.profile_id := by
  split
  · rfl
  · split
    · rfl
    · rfl

lemma swap_fun_other {u : String} {cur nb v : VehicleRow}
    (h1 : v.id ≠ cur.id) (h2 : v.id ≠ nb.id) :
    (if v.profile_id == u && v.id == cur.id then { v with sort_order := nb.sort_order }
     else if v.profile_id == u && v.id == nb.id then { v with sort_order := cur.sort_order }
     else v) = v := by
  have hc1 : (v.profile_id == u && v.id == cur.id) = false := by
    rw [Bool.and_eq_false_iff]
    right
    rw [beq_eq_false_iff_ne]
    exact h1
  have hc2 : (v.profile_id == u && v.id == nb.id) = false := by
    rw [Bool.and_eq_false_iff]
    right
    rw [beq_eq_false_iff_ne]
    exact h2
  rw [if_neg (by rw [hc1]; exact Bool.false_ne_true),
    if_neg (by rw [hc2]; exact Bool.false_ne_true)]

lemma swap_fun_cur {u : String} {cur nb : VehicleRow} (hp : cur.profile_id = u) :
    (if cur.profile_id == u && cur.id == cur.id then { cur with sort_order := nb.sort_order }
     else if cur.profile_id == u && cur.id == nb.id then { cur with sort_order := cur.sort_order }
     else cur) = { cur with sort_order := nb.sort_order } := by
  rw [if_pos (by simp [hp])]

lemma swap_fun_nb {u : String} {cur nb : VehicleRow} (hp : nb.profile_id = u)
    (hne : nb.id ≠ cur.id) :
    (if nb.profile_id == u && nb.id == cur.id then { nb with sort_order := nb.sort_order }
     else if nb.profile_id == u && nb.id == nb.id then { nb with sort_order := cur.sort_order }
     else nb) = { nb with sort_order := cur.sort_order } := by
  rw [if_neg (by simp [hne]), if_pos (by simp [hp])]

lemma mKeyLt_iff (a b : ModOrderRow) :
    mKeyLt a b = true ↔
      (a.sort_order < b.sort_order ∨
       (a.sort_order = b.sort_order ∧
        (a.created_at < b.created_at ∨
         (a.created_at = b.created_at ∧ a.id < b.id)))) := by
  simp [mKeyLt, Bool.or_eq_true, Bool.and_eq_true, beq_iff_eq, decide_eq_true_eq]

lemma mKeyLt_false_iff (a b : ModOrderRow) :
    mKeyLt a b = false ↔
      ¬(a.sort_order < b.sort_order ∨
        (a.sort_order = b.sort_order ∧
         (a.created_at < b.created_at ∨
          (a.created_at = b.created_at ∧ a.id < b.id)))) := by
  rw [← mKeyLt_iff]
  cases h : mKeyLt a b <;> simp

lemma mKeyLt_irrefl (a : ModOrderRow) : mKeyLt a a = false := by
  rw [mKeyLt_false_iff]
  omega

lemma mKeyLt_asymm {a b : ModOrderRow} (h : mKeyLt a b = true) : mKeyLt b a = false := by
  rw [mKeyLt_iff] at h
  rw [mKeyLt_false_iff]
  omega

lemma mKeyLt_not_trans {a b c : ModOrderRow}
    (h1 : mKeyLt a b = false) (h2 : mKeyLt b c = false) : mKeyLt a c = false := by
  rw [mKeyLt_false_iff] at h1 h2 ⊢
  omega

lemma pickMaxM_cons_isSome (a : ModOrderRow) (l : List ModOrderRow) :
    (pickMaxM (a :: l)).isSome = true := by
  rw [pickMaxM]
  cases pickMaxM l with
  | none => rfl
  | some m =>
      show (if mKeyLt a m = true then some m else some a).isSome = true
      split <;> rfl

lemma pickMinM_cons_isSome (a : ModOrderRow) (l : List ModOrderRow) :
    (pickMinM (a :: l)).isSome = true := by
  rw [pickMinM]
  cases pickMinM l with
  | none => rfl
  | some m =>
      show (if mKeyLt m a = true then some m else some a).isSome = true
      split <;> rfl

lemma pickMaxM_spec : ∀ {l : List ModOrderRow} {m : ModOrderRow},
    pickMaxM l = some m → m ∈ l ∧ ∀ v ∈ l, mKeyLt m v = false := by
  intro l
  induction l with
  | nil => intro m h; cases h
  | cons a l ih =>
      intro m h
      cases hrec : pickMaxM l with
      | none =>
          simp only [pickMaxM, hrec] at h
          injection h with h
          subst h
          refine ⟨List.mem_cons_self _ _, ?_⟩
          intro v hv
          rcases List.mem_cons.mp hv with rfl | hv2
          · exact mKeyLt_irrefl _
          · cases l with
            | nil => cases hv2
            | cons b t =>
                exfalso
                have hs := pickMaxM_cons_isSome b t
                rw [hrec] at hs
                cases hs
      | some m2 =>
          simp only [pickMaxM, hrec] at h
          by_cases hlt : mKeyLt a m2 = true
          · rw [if_pos hlt] at h
            injection h with h
            subst h
            obtain ⟨hmem, hmax⟩ := ih hrec
            refine ⟨List.mem_cons_of_mem a hmem, ?_⟩
            intro v hv
            rcases List.mem_cons.mp hv with rfl | hv2
            · exact mKeyLt_asymm hlt
            · exact hmax v hv2
          · rw [if_neg hlt] at h
            injection h with h
            subst h
            obtain ⟨hmem, hmax⟩ := ih hrec
            refine ⟨List.mem_cons_self _ _, ?_⟩
            intro v hv
            rcases List.mem_cons.mp hv with rfl | hv2
            · exact mKeyLt_irrefl _
            · exact mKeyLt_not_trans (Bool.of_not_eq_true hlt) (hmax v hv2)

lemma pickMinM_spec : ∀ {l : List ModOrderRow} {m : ModOrderRow},
    pickMinM l = some m → m ∈ l ∧ ∀ v ∈ l, mKeyLt v m = false := by
  intro l
  induction l with
  | nil => intro m h; cases h
  | cons a l ih =>
      intro m h
      cases hrec : pickMinM l with
      | none =>
          simp only [pickMinM, hrec] at h
          injection h with h
          subst h
          refine ⟨List.mem_cons_self _ _, ?_⟩
          intro v hv
          rcases List.mem_cons.mp hv with rfl | hv2
          · exact mKeyLt_irrefl _
          · cases l with
            | nil => cases hv2
            | cons b t =>
                exfalso
                have hs := pickMinM_cons_isSome b t
                rw [hrec] at hs
                cases hs
      | some m2 =>
          simp only [pickMinM, hrec] at h
          by_cases hlt : mKeyLt m2 a = true
          · rw [if_pos hlt] at h
            injection h with h
            subst h
            obtain ⟨hmem, hmin⟩ := ih hrec
            refine ⟨List.mem_cons_of_mem a hmem, ?_⟩
            intro v hv
            rcases List.mem_cons.mp hv with rfl | hv2
            · exact mKeyLt_asymm hlt
            · exact hmin v hv2
          · rw [if_neg hlt] at h
            injection h with h
            subst h
            obtain ⟨hmem, hmin⟩ := ih hrec
            refine ⟨List.mem_cons_self _ _, ?_⟩
            intro v hv
            rcases List.mem_cons.mp hv with rfl | hv2
            · exact mKeyLt_irrefl _
            · exact mKeyLt_not_trans (hmin v hv2) (Bool.of_not_eq_true hlt)

lemma reorder_mod_up_moved_inv {vehicles : List VehicleRow} {mods : List ModOrderRow}
    {u : String} {pvid mid : Nat} {mods' : List ModOrderRow}
    (h : reorder_mod_swap vehicles mods (some u) pvid mid "up" = .ok ("moved", mods')) :
    ∃ cur nb, mods.find? (fun m => m.id == mid && m.vehicle_id == pvid
        && vehicles.any (fun v => v.id == m.vehicle_id && v.profile_id == u)) = some cur ∧
      pickMaxM (mods.filter (fun m => m.vehicle_id == pvid && mKeyLt m cur)) = some nb ∧
      mods' = swapModSortOrders mods pvid cur nb := by
  rw [reorder_mod_swap.eq_def, if_neg (by decide)] at h
  cases hfind : mods.find? (fun m => m.id == mid && m.vehicle_id == pvid
      && vehicles.any (fun v => v.id == m.vehicle_id && v.profile_id == u)) with
  | none =>
      simp only [hfind] at h
      injection h with h
      injection h with h1 h2
      exact absurd h1 (by decide)
  | some cur =>
      simp only [hfind] at h
      have hup : (if ("up" == "up" : Bool) then
            pickMaxM (mods.filter (fun m => m.vehicle_id == pvid && mKeyLt m cur))
          else pickMinM (mods.filter (fun m => m.vehicle_id == pvid && mKeyLt cur m)))
          = pickMaxM (mods.filter (fun m => m.vehicle_id == pvid && mKeyLt m cur)) :=
        if_pos rfl
      rw [hup] at h
      cases hpick : pickMaxM (mods.filter (fun m => m.vehicle_id == pvid && mKeyLt m cur)) with
      | none =>
          simp only [hpick] at h
          injection h with h
          injection h with h1 h2
          exact absurd h1 (by decide)
      | some nb =>
          simp only [hpick] at h
          injection h with h
          injection h with h1 h2
          exact ⟨cur, nb, rfl, hpick, h2.symm⟩

lemma reorder_mod_down_moved_intro {vehicles : List VehicleRow} {mods : List ModOrderRow}
    {u : String} {pvid mid : Nat} {cur nb : ModOrderRow}
    (hfind : mods.find? (fun m => m.id == mid && m.vehicle_id == pvid
        && vehicles.any (fun v => v.id == m.vehicle_id && v.profile_id == u)) = some cur)
    (hpick : pickMinM (mods.filter (fun m => m.vehicle_id == pvid && mKeyLt cur m))
      = some nb) :
    reorder_mod_swap vehicles mods (some u) pvid mid "down"
      = .ok ("moved", swapModSortOrders mods pvid cur nb) := by
  rw [reorder_mod_swap.eq_def, if_neg (by decide)]
  simp only [hfind]
  have hdn : (if ("down" == "up" : Bool) then
        pickMaxM (mods.filter (fun m => m.vehicle_id == pvid && mKeyLt m cur))
      else pickMinM (mods.filter (fun m => m.vehicle_id == pvid && mKeyLt cur m)))
      = pickMinM (mods.filter (fun m => m.vehicle_id == pvid && mKeyLt cur m)) :=
    if_neg (by decide)
  rw [hdn, hpick]

lemma reorder_mod_down_moved_inv {vehicles : List VehicleRow} {mods : List ModOrderRow}
    {u : String} {pvid mid : Nat} {mods' : List ModOrderRow}
    (h : reorder_mod_swap vehicles mods (some u) pvid mid "down" = .ok ("moved", mods')) :
    ∃ cur nb, mods.find? (fun m => m.id == mid && m.vehicle_id == pvid
        && vehicles.any (fun v => v.id == m.vehicle_id && v.profile_id == u)) = some cur ∧
      pickMinM (mods.filter (fun m => m.vehicle_id == pvid && mKeyLt cur m)) = some nb ∧
      mods' = swapModSortOrders mods pvid cur nb := by
  rw [reorder_mod_swap.eq_def, if_neg (by decide)] at h
  cases hfind : mods.find? (fun m => m.id == mid && m.vehicle_id == pvid
      && vehicles.any (fun v => v.id == m.vehicle_id && v.profile_id == u)) with
  | none =>
      simp only [hfind] at h
      injection h with h
      injection h with h1 h2
      exact absurd h1 (by decide)
  | some cur =>
      simp only [hfind] at h
      have hdn : (if ("down" == "up" : Bool) then
            pickMaxM (mods.filter (fun m => m.vehicle_id == pvid && mKeyLt m cur))
          else pickMinM (mods.filter (fun m => m.vehicle_id == pvid && mKeyLt cur m)))
          = pickMinM (mods.filter (fun m => m.vehicle_id == pvid && mKeyLt cur m)) :=
        if_neg (by decide)
      rw [hdn] at h
      cases hpick : pickMinM (mods.filter (fun m => m.vehicle_id == pvid && mKeyLt cur m)) with
      | none =>
          simp only [hpick] at h
          injection h with h
          injection h with h1 h2
          exact absurd h1 (by decide)
      | some nb =>
          simp only [hpick] at h
          injection h with h
          injection h with h1 h2
          exact ⟨cur, nb, rfl, hpick, h2.symm⟩

lemma find?_mrows_map (l : List ModOrderRow) (f : ModOrderRow → ModOrderRow)
    (p : ModOrderRow → Bool) (hp : ∀ m, p (f m) = p m) :
    (l.map f).find? p = (l.find? p).map f := by
  induction l with
  | nil => rfl
  | cons a l ih =>
      by_cases hpa : p a = true
      · have h1 : (f a :: l.map f).find? p = some (f a) :=
          List.find?_cons_of_pos _ (by rw [hp a]; exact hpa)
        have h2 : (a :: l).find? p = some a := List.find?_cons_of_pos _ hpa
        rw [List.map_cons, h1, h2, Option.map_some']
      · have h1 : (f a :: l.map f).find? p = (l.map f).find? p :=
          List.find?_cons_of_neg _ (by rw [hp a]; exact hpa)
        have h2 : (a :: l).find? p = l.find? p := List.find?_cons_of_neg _ hpa
        rw [List.map_cons, h1, h2, ih]

lemma swapM_fun_id (pvid : Nat) (cur nb m : ModOrderRow) :
    (if m.vehicle_id == pvid && m.id == cur.id then { m with sort_order := nb.sort_order }
     else if m.vehicle_id == pvid && m.id == nb.id then { m with sort_order := cur.sort_order }
     else m).id = m.id := by
  split
  · rfl
  · split
    · rfl
    · rfl

lemma swapM_fun_vehicle (pvid : Nat) (cur nb m : ModOrderRow) :
    (if m.vehicle_id == pvid && m.id == cur.id then { m with sort_order := nb.sort_order }
     else if m.vehicle_id == pvid && m.id == nb.id then { m with sort_order := cur.sort_order }
     else m).vehicle_id = m.vehicle_id := by
  split
  · rfl
  · split
    · rfl
    · rfl

lemma swapM_fun_other {pvid : Nat} {cur nb m : ModOrderRow}
    (h1 : m.id ≠ cur.id) (h2 : m.id ≠ nb.id) :
    (if m.vehicle_id == pvid && m.id == cur.id then { m with sort_order := nb.sort_order }
     else if m.vehicle_id == pvid && m.id == nb.id then { m with sort_order := cur.sort_order }
     else m) = m := by
  have hc1 : (m.vehicle_id == pvid && m.id == cur.id) = false := by
    rw [Bool.and_eq_false_iff]
    right
    rw [beq_eq_false_iff_ne]
    exact h1
  have hc2 : (m.vehicle_id == pvid && m.id == nb.id) = false := by
    rw [Bool.and_eq_false_iff]
    right
    rw [beq_eq_false_iff_ne]
    exact h2
  rw [if_neg (by rw [hc1]; exact Bool.false_ne_true),
    if_neg (by rw [hc2]; exact Bool.false_ne_true)]

lemma swapM_fun_cur {pvid : Nat} {cur nb : ModOrderRow} (hp : cur.vehicle_id = pvid) :
    (if cur.vehicle_id == pvid && cur.id == cur.id then { cur with sort_order := nb.sort_order }
     else if cur.vehicle_id == pvid && cur.id == nb.id then { cur with sort_order := cur.sort_order }
     else cur) = { cur with sort_order := nb.sort_order } := by
  rw [if_pos (by simp [hp])]

lemma swapM_fun_nb {pvid : Nat} {cur nb : ModOrderRow} (hp : nb.vehicle_id = pvid)
    (hne : nb.id ≠ cur.id) :
    (if nb.vehicle_id == pvid && nb.id == cur.id then { nb with sort_order := nb.sort_order }
     else if nb.vehicle_id == pvid && nb.id == nb.id then { nb with sort_order := cur.sort_order }
     else nb) = { nb with sort_order := cur.sort_order } := by
  rw [if_neg (by simp [hne]), if_pos (by simp [hp])]

lemma moved_mod_common_facts {vehicles : List VehicleRow} {mods : List ModOrderRow}
    {u : String} {pvid mid : Nat} {cur nb : ModOrderRow}
    (hnd : (mods.map ModOrderRow.id).Nodup)
    (hfind : mods.find? (fun m => m.id == mid && m.vehicle_id == pvid
        && vehicles.any (fun v => v.id == m.vehicle_id && v.profile_id == u)) = some cur)
    (hnbmem : nb ∈ mods) (hnbveh : (nb.vehicle_id == pvid) = true)
    (hnbne : nb ≠ cur) :
    cur ∈ mods ∧ cur.id = mid ∧ cur.vehicle_id = pvid ∧ nb.vehicle_id = pvid ∧
    nb.id ≠ cur.id := by
  have hcurmem := List.mem_of_find?_eq_some hfind
  have hcurpred := List.find?_some hfind
  rw [Bool.and_eq_true, Bool.and_eq_true, beq_iff_eq, beq_iff_eq] at hcurpred
  rw [beq_iff_eq] at hnbveh
  exact ⟨hcurmem, hcurpred.1.1, hcurpred.1.2, hnbveh,
    fun he => hnbne (nodup_key_inj ModOrderRow.id hnd hnbmem hcurmem he)⟩

lemma reorder_mod_round_trip {vehicles : List VehicleRow} {mods : List ModOrderRow}
    {u : String} {pvid mid : Nat} {mods' : List ModOrderRow}
    (hnd : (mods.map ModOrderRow.id).Nodup)
    (hds : ∀ a ∈ mods, ∀ b ∈ mods, a.vehicle_id = pvid → b.vehicle_id = pvid → a ≠ b →
      a.sort_order ≠ b.sort_order)
    (h1 : reorder_mod_swap vehicles mods (some u) pvid mid "up" = .ok ("moved", mods')) :
    reorder_mod_swap vehicles mods' (some u) pvid mid "down" = .ok ("moved", mods) := by
  obtain ⟨cur, nb, hfind, hpick, hdb'⟩ := reorder_mod_up_moved_inv h1
  have hcurmem := List.mem_of_find?_eq_some hfind
  have hcurpred := List.find?_some hfind
  rw [Bool.and_eq_true, Bool.and_eq_true, beq_iff_eq, beq_iff_eq] at hcurpred
  obtain ⟨hnbf, hnbmax⟩ := pickMaxM_spec hpick
  rw [List.mem_filter, Bool.and_eq_true, beq_iff_eq] at hnbf
  obtain ⟨hnbmem, hnbveh, hnblt⟩ := hnbf
  have hnbne : nb ≠ cur := by
    intro he
    rw [he, mKeyLt_irrefl cur] at hnblt
    exact Bool.noConfusion hnblt
  have hidne : nb.id ≠ cur.id :=
    fun he => hnbne (nodup_key_inj ModOrderRow.id hnd hnbmem hcurmem he)
  have hsne : nb.sort_order ≠ cur.sort_order :=
    hds nb hnbmem cur hcurmem hnbveh hcurpred.1.2 hnbne
  have hslt : nb.sort_order < cur.sort_order := by
    rw [mKeyLt_iff] at hnblt
    omega
  set f : ModOrderRow → ModOrderRow := fun m =>
    if m.vehicle_id == pvid && m.id == cur.id then { m with sort_order := nb.sort_order }
    else if m.vehicle_id == pvid && m.id == nb.id then { m with sort_order := cur.sort_order }
    else m with hf
  have hdbmap : mods' = mods.map f := hdb'
  have hfid : ∀ m, (f m).id = m.id := fun m => swapM_fun_id pvid cur nb m
  have hfveh : ∀ m, (f m).vehicle_id = m.vehicle_id := fun m => swapM_fun_vehicle pvid cur nb m
  have hfcur : f cur = { cur with sort_order := nb.sort_order } := swapM_fun_cur hcurpred.1.2
  have hfnb : f nb = { nb with sort_order := cur.sort_order } := swapM_fun_nb hnbveh hidne
  have hfother : ∀ m, m.id ≠ cur.id → m.id ≠ nb.id → f m = m :=
    fun m ha hb => swapM_fun_other ha hb
  have hdb'_nd : (mods'.map ModOrderRow.id).Nodup := by
    rw [hdbmap, List.map_map]
    have hcong : ∀ m ∈ mods, (ModOrderRow.id ∘ f) m = ModOrderRow.id m := fun m _ => hfid m
    rw [List.map_congr_left hcong]
    exact hnd
  have hfind2 : mods'.find? (fun m => m.id == mid && m.vehicle_id == pvid
      && vehicles.any (fun v => v.id == m.vehicle_id && v.profile_id == u))
      = some { cur with sort_order := nb.sort_order } := by
    rw [hdbmap,
      find?_mrows_map mods f (fun m => m.id == mid && m.vehicle_id == pvid
        && vehicles.any (fun v => v.id == m.vehicle_id && v.profile_id == u))
        (fun m => by
          show ((f m).id == mid && (f m).vehicle_id == pvid
              && vehicles.any (fun v => v.id == (f m).vehicle_id && v.profile_id == u))
            = (m.id == mid && m.vehicle_id == pvid
              && vehicles.any (fun v => v.id == m.vehicle_id && v.profile_id == u))
          rw [hfid m, hfveh m]),
      hfind, Option.map_some', hfcur]
  have hn2mem : ({ nb with sort_order := cur.sort_order } : ModOrderRow) ∈ mods' := by
    rw [hdbmap]
    exact List.mem_map.mpr ⟨nb, hnbmem, hfnb⟩
  have hqn2 : (({ nb with sort_order := cur.sort_order } : ModOrderRow).vehicle_id == pvid
      && mKeyLt { cur with sort_order := nb.sort_order }
        { nb with sort_order := cur.sort_order }) = true := by
    rw [Bool.and_eq_true, beq_iff_eq]
    refine ⟨hnbveh, ?_⟩
    rw [mKeyLt_iff]
    exact Or.inl hslt
  have hα : ({ nb with sort_order := cur.sort_order } : ModOrderRow)
      ∈ mods'.filter (fun m => m.vehicle_id == pvid
        && mKeyLt { cur with sort_order := nb.sort_order } m) :=
    List.mem_filter.mpr ⟨hn2mem, hqn2⟩
  have hβ : ∀ m ∈ mods'.filter (fun m => m.vehicle_id == pvid
      && mKeyLt { cur with sort_order := nb.sort_order } m),
      mKeyLt m { nb with sort_order := cur.sort_order } = false := by
    intro v hvf
    rw [List.mem_filter, Bool.and_eq_true, beq_iff_eq] at hvf
    obtain ⟨hvmem2, hvveh, hvlt⟩ := hvf
    rw [hdbmap] at hvmem2
    obtain ⟨w, hw, hfw⟩ := List.mem_map.mp hvmem2
    by_cases hwc : w = cur
    · exfalso
      rw [hwc, hfcur] at hfw
      rw [← hfw, mKeyLt_irrefl] at hvlt
      exact Bool.noConfusion hvlt
    · by_cases hwn : w = nb
      · rw [hwn, hfnb] at hfw
        rw [← hfw]
        exact mKeyLt_irrefl _
      · have hwidc : w.id ≠ cur.id :=
          fun he => hwc (nodup_key_inj ModOrderRow.id hnd hw hcurmem he)
        have hwidn : w.id ≠ nb.id :=
          fun he => hwn (nodup_key_inj ModOrderRow.id hnd hw hnbmem he)
        rw [hfother w hwidc hwidn] at hfw
        subst hfw
        have hwsc : w.sort_order ≠ cur.sort_order :=
          hds w hw cur hcurmem hvveh hcurpred.1.2 hwc
        have hwsn : w.sort_order ≠ nb.sort_order :=
          hds w hw nb hnbmem hvveh hnbveh hwn
        rw [mKeyLt_iff] at hvlt
        rw [show ({ cur with sort_order := nb.sort_order } : ModOrderRow).sort_order
            = nb.sort_order from rfl,
          show ({ cur with sort_order := nb.sort_order } : ModOrderRow).created_at
            = cur.created_at from rfl,
          show ({ cur with sort_order := nb.sort_order } : ModOrderRow).id
            = cur.id from rfl] at hvlt
        have hgt : nb.sort_order < w.sort_order := by omega
        have hcurgt : cur.sort_order < w.sort_order := by
          by_contra hcon
          have hwltc : w.sort_order < cur.sort_order := by omega
          have hwlt : mKeyLt w cur = true := by
            rw [mKeyLt_iff]
            exact Or.inl hwltc
          have hwf : w ∈ mods.filter (fun m => m.vehicle_id == pvid && mKeyLt m cur) :=
            List.mem_filter.mpr ⟨hw, by
              rw [Bool.and_eq_true, beq_iff_eq]
              exact ⟨hvveh, hwlt⟩⟩
          have hmax := hnbmax w hwf
          rw [mKeyLt_false_iff] at hmax
          omega
        rw [mKeyLt_false_iff]
        rw [show ({ nb with sort_order := cur.sort_order } : ModOrderRow).sort_order
            = cur.sort_order from rfl,
          show ({ nb with sort_order := cur.sort_order } : ModOrderRow).created_at
            = nb.created_at from rfl,
          show ({ nb with sort_order := cur.sort_order } : ModOrderRow).id
            = nb.id from rfl]
        omega
  have hfilterne : mods'.filter (fun m => m.vehicle_id == pvid
      && mKeyLt { cur with sort_order := nb.sort_order } m) ≠ [] :=
    List.ne_nil_of_mem hα
  obtain ⟨m, hm⟩ : ∃ m, pickMinM (mods'.filter (fun m => m.vehicle_id == pvid
      && mKeyLt { cur with sort_order := nb.sort_order } m)) = some m := by
    cases hq : mods'.filter (fun m => m.vehicle_id == pvid
        && mKeyLt { cur with sort_order := nb.sort_order } m) with
    | nil => exact absurd hq hfilterne
    | cons a t =>
        exact Option.isSome_iff_exists.mp (pickMinM_cons_isSome a t)
  obtain ⟨hmf, hmin⟩ := pickMinM_spec hm
  have hmn2a : mKeyLt m { nb with sort_order := cur.sort_order } = false := hβ m hmf
  have hmn2b : mKeyLt { nb with sort_order := cur.sort_order } m = false :=
    hmin _ hα
  have hmid2 : m.id = ({ nb with sort_order := cur.sort_order } : ModOrderRow).id := by
    rw [mKeyLt_false_iff] at hmn2a hmn2b
    omega
  have hmem2 : m ∈ mods' := (List.mem_filter.mp hmf).1
  have hmeq : m = { nb with sort_order := cur.sort_order } :=
    nodup_key_inj ModOrderRow.id hdb'_nd hmem2 hn2mem hmid2
  rw [hmeq] at hm
  have hswap2 : swapModSortOrders mods' pvid { cur with sort_order := nb.sort_order }
      { nb with sort_order := cur.sort_order } = mods := by
    rw [hdbmap, swapModSortOrders, List.map_map]
    have hcong : ∀ m ∈ mods,
        ((fun m => if m.vehicle_id == pvid
            && m.id == ({ cur with sort_order := nb.sort_order } : ModOrderRow).id then
          { m with sort_order := ({ nb with sort_order := cur.sort_order } : ModOrderRow).sort_order }
        else if m.vehicle_id == pvid
            && m.id == ({ nb with sort_order := cur.sort_order } : ModOrderRow).id then
          { m with sort_order := ({ cur with sort_order := nb.sort_order } : ModOrderRow).sort_order }
        else m) ∘ f) m = m := by
      intro v hv
      by_cases hvc : v = cur
      · rw [hvc]
        show (if (f cur).vehicle_id == pvid && (f cur).id == cur.id then
            { f cur with sort_order := cur.sort_order }
          else if (f cur).vehicle_id == pvid && (f cur).id == nb.id then
            { f cur with sort_order := nb.sort_order }
          else f cur) = cur
        rw [hfcur]
        rw [if_pos (by simp [hcurpred.1.2])]
      · by_cases hvn : v = nb
        · rw [hvn]
          show (if (f nb).vehicle_id == pvid && (f nb).id == cur.id then
              { f nb with sort_order := cur.sort_order }
            else if (f nb).vehicle_id == pvid && (f nb).id == nb.id then
              { f nb with sort_order := nb.sort_order }
            else f nb) = nb
          rw [hfnb]
          rw [if_neg (by simp [hnbveh, hidne]), if_pos (by simp [hnbveh])]
        · have ha : v.id ≠ cur.id :=
            fun he => hvc (nodup_key_inj ModOrderRow.id hnd hv hcurmem he)
          have hb : v.id ≠ nb.id :=
            fun he => hvn (nodup_key_inj ModOrderRow.id hnd hv hnbmem he)
          show (if (f v).vehicle_id == pvid && (f v).id == cur.id then
              { f v with sort_order := cur.sort_order }
            else if (f v).vehicle_id == pvid && (f v).id == nb.id then
              { f v with sort_order := nb.sort_order }
            else f v) = v
          rw [hfother v ha hb]
          rw [if_neg (by simp [ha]), if_neg (by simp [hb])]
    rw [List.map_congr_left hcong, List.map_id']
  have hfin := reorder_mod_down_moved_intro hfind2 hm
  rw [hswap2] at hfin
  exact hfin

/-- Amended C9 contract, covering both `reorder_vehicle_swap` and
`reorder_mod_swap`: (frame) a `moved` outcome swaps exactly the two selected
rows' `sort_order` values and touches nothing else; (round trip) when the
siblings in scope (the owner's vehicles, resp. the mods of the target
vehicle) have pairwise-distinct `sort_order` values, `reorder(x, up)`
returning `moved` followed by `reorder(x, down)` restores the exact original
table. -/
def C9Spec : Prop :=
  (∀ (db : List VehicleRow) (u : String) (vid : Nat) (dir : String)
      (db' : List VehicleRow),
    (db.map VehicleRow.id).Nodup →
    dir = "up" ∨ dir = "down" →
    reorder_vehicle_swap db (some u) vid dir = .ok ("moved", db') →
    ∃ cur nb, cur ∈ db ∧ nb ∈ db ∧ cur.id ≠ nb.id ∧
      cur.profile_id = u ∧ nb.profile_id = u ∧
      db' = swapVehicleSortOrders db u cur nb ∧
      (∀ v ∈ db, v.id ≠ cur.id → v.id ≠ nb.id → v ∈ db') ∧
      { cur with sort_order := nb.sort_order } ∈ db' ∧
      { nb with sort_order := cur.sort_order } ∈ db') ∧
  (∀ (db : List VehicleRow) (u : String) (vid : Nat) (db' : List VehicleRow),
    (db.map VehicleRow.id).Nodup →
    (∀ a ∈ db, ∀ b ∈ db, a.profile_id = u → b.profile_id = u → a ≠ b →
      a.sort_order ≠ b.sort_order) →
    reorder_vehicle_swap db (some u) vid "up" = .ok ("moved", db') →
    reorder_vehicle_swap db' (some u) vid "down" = .ok ("moved", db)) ∧
  (∀ (vehicles : List VehicleRow) (mods : List ModOrderRow) (u : String)
      (pvid mid : Nat) (dir : String) (mods' : List ModOrderRow),
    (mods.map ModOrderRow.id).Nodup →
    dir = "up" ∨ dir = "down" →
    reorder_mod_swap vehicles mods (some u) pvid mid dir = .ok ("moved", mods') →
    ∃ cur nb, cur ∈ mods ∧ nb ∈ mods ∧ cur.id ≠ nb.id ∧
      cur.vehicle_id = pvid ∧ nb.vehicle_id = pvid ∧
      mods' = swapModSortOrders mods pvid cur nb ∧
      (∀ m ∈ mods, m.id ≠ cur.id → m.id ≠ nb.id → m ∈ mods') ∧
      { cur with sort_order := nb.sort_order } ∈ mods' ∧
      { nb with sort_order := cur.sort_order } ∈ mods') ∧
  (∀ (vehicles : List VehicleRow) (mods : List ModOrderRow) (u : String)
      (pvid mid : Nat) (mods' : List ModOrderRow),
    (mods.map ModOrderRow.id).Nodup →
    (∀ a ∈ mods, ∀ b ∈ mods, a.vehicle_id = pvid → b.vehicle_id = pvid → a ≠ b →
      a.sort_order ≠ b.sort_order) →
    reorder_mod_swap vehicles mods (some u) pvid mid "up" = .ok ("moved", mods') →
    reorder_mod_swap vehicles mods' (some u) pvid mid "down" = .ok ("moved", mods))

lemma moved_common_facts {db : List VehicleRow} {u : String} {vid : Nat}
    {cur nb : VehicleRow}
    (hnd : (db.map VehicleRow.id).Nodup)
    (hfind : db.find? (fun v => v.id == vid && v.profile_id == u) = some cur)
    (hnbmem : nb ∈ db) (hnbp : (nb.profile_id == u) = true)
    (hnbne : nb ≠ cur) :
    cur ∈ db ∧ cur.id = vid ∧ cur.profile_id = u ∧ nb.profile_id = u ∧
    nb.id ≠ cur.id := by
  have hcurmem := List.mem_of_find?_eq_some hfind
  have hcurpred := List.find?_some hfind
  rw [Bool.and_eq_true, beq_iff_eq, beq_iff_eq] at hcurpred
  rw [beq_iff_eq] at hnbp
  exact ⟨hcurmem, hcurpred.1, hcurpred.2, hnbp,
    fun he => hnbne (nodup_key_inj VehicleRow.id hnd hnbmem hcurmem he)⟩

lemma reorder_round_trip {db : List VehicleRow} {u : String} {vid : Nat}
    {db' : List VehicleRow}
    (hnd : (db.map VehicleRow.id).Nodup)
    (hds : ∀ a ∈ db, ∀ b ∈ db, a.profile_id = u → b.profile_id = u → a ≠ b →
      a.sort_order ≠ b.sort_order)
    (h1 : reorder_vehicle_swap db (some u) vid "up" = .ok ("moved", db')) :
    reorder_vehicle_swap db' (some u) vid "down" = .ok ("moved", db) := by
  obtain ⟨cur, nb, hfind, hpick, hdb'⟩ := reorder_up_moved_inv h1
  have hcurmem := List.mem_of_find?_eq_some hfind
  have hcurpred := List.find?_some hfind
  rw [Bool.and_eq_true, beq_iff_eq, beq_iff_eq] at hcurpred
  obtain ⟨hnbf, hnbmax⟩ := pickMaxV_spec hpick
  rw [List.mem_filter, Bool.and_eq_true, beq_iff_eq] at hnbf
  obtain ⟨hnbmem, hnbp, hnblt⟩ := hnbf
  have hnbne : nb ≠ cur := by
    intro he
    rw [he, vKeyLt_irrefl cur] at hnblt
    exact Bool.noConfusion hnblt
  have hidne : nb.id ≠ cur.id :=
    fun he => hnbne (nodup_key_inj VehicleRow.id hnd hnbmem hcurmem he)
  have hsne : nb.sort_order ≠ cur.sort_order :=
    hds nb hnbmem cur hcurmem hnbp hcurpred.2 hnbne
  have hslt : nb.sort_order < cur.sort_order := by
    rw [vKeyLt_iff] at hnblt
    omega
  set f : VehicleRow → VehicleRow := fun v =>
    if v.profile_id == u && v.id == cur.id then { v with sort_order := nb.sort_order }
    else if v.profile_id == u && v.id == nb.id then { v with sort_order := cur.sort_order }
    else v with hf
  have hdbmap : db' = db.map f := hdb'
  have hfid : ∀ v, (f v).id = v.id := fun v => swap_fun_id u cur nb v
  have hfpr : ∀ v, (f v).profile_id = v.profile_id := fun v => swap_fun_profile u cur nb v
  have hfcur : f cur = { cur with sort_order := nb.sort_order } := swap_fun_cur hcurpred.2
  have hfnb : f nb = { nb with sort_order := cur.sort_order } := swap_fun_nb hnbp hidne
  have hfother : ∀ v, v.id ≠ cur.id → v.id ≠ nb.id → f v = v :=
    fun v ha hb => swap_fun_other ha hb
  have hdb'_nd : (db'.map VehicleRow.id).Nodup := by
    rw [hdbmap, List.map_map]
    have hcong : ∀ v ∈ db, (VehicleRow.id ∘ f) v = VehicleRow.id v := fun v _ => hfid v
    rw [List.map_congr_left hcong]
    exact hnd
  have hfind2 : db'.find? (fun v => v.id == vid && v.profile_id == u)
      = some { cur with sort_order := nb.sort_order } := by
    rw [hdbmap,
      find?_vrows_map db f (fun v => v.id == vid && v.profile_id == u)
        (fun v => by
          show ((f v).id == vid && (f v).profile_id == u)
            = (v.id == vid && v.profile_id == u)
          rw [hfid v, hfpr v]),
      hfind, Option.map_some', hfcur]
  have hn2mem : ({ nb with sort_order := cur.sort_order } : VehicleRow) ∈ db' := by
    rw [hdbmap]
    exact List.mem_map.mpr ⟨nb, hnbmem, hfnb⟩
  have hqn2 : (({ nb with sort_order := cur.sort_order } : VehicleRow).profile_id == u
      && vKeyLt { cur with sort_order := nb.sort_order }
        { nb with sort_order := cur.sort_order }) = true := by
    rw [Bool.and_eq_true, beq_iff_eq]
    refine ⟨hnbp, ?_⟩
    rw [vKeyLt_iff]
    exact Or.inl hslt
  have hα : ({ nb with sort_order := cur.sort_order } : VehicleRow)
      ∈ db'.filter (fun v => v.profile_id == u
        && vKeyLt { cur with sort_order := nb.sort_order } v) :=
    List.mem_filter.mpr ⟨hn2mem, hqn2⟩
  have hβ : ∀ v ∈ db'.filter (fun v => v.profile_id == u
      && vKeyLt { cur with sort_order := nb.sort_order } v),
      vKeyLt v { nb with sort_order := cur.sort_order } = false := by
    intro v hvf
    rw [List.mem_filter, Bool.and_eq_true, beq_iff_eq] at hvf
    obtain ⟨hvmem2, hvp, hvlt⟩ := hvf
    rw [hdbmap] at hvmem2
    obtain ⟨w, hw, hfw⟩ := List.mem_map.mp hvmem2
    by_cases hwc : w = cur
    · exfalso
      rw [hwc, hfcur] at hfw
      rw [← hfw, vKeyLt_irrefl] at hvlt
      exact Bool.noConfusion hvlt
    · by_cases hwn : w = nb
      · rw [hwn, hfnb] at hfw
        rw [← hfw]
        exact vKeyLt_irrefl _
      · have hwidc : w.id ≠ cur.id :=
          fun he => hwc (nodup_key_inj VehicleRow.id hnd hw hcurmem he)
        have hwidn : w.id ≠ nb.id :=
          fun he => hwn (nodup_key_inj VehicleRow.id hnd hw hnbmem he)
        rw [hfother w hwidc hwidn] at hfw
        subst hfw
        have hwsc : w.sort_order ≠ cur.sort_order :=
          hds w hw cur hcurmem hvp hcurpred.2 hwc
        have hwsn : w.sort_order ≠ nb.sort_order :=
          hds w hw nb hnbmem hvp hnbp hwn
        rw [vKeyLt_iff] at hvlt
        rw [show ({ cur with sort_order := nb.sort_order } : VehicleRow).sort_order
            = nb.sort_order from rfl,
          show ({ cur with sort_order := nb.sort_order } : VehicleRow).created_at
            = cur.created_at from rfl,
          show ({ cur with sort_order := nb.sort_order } : VehicleRow).id
            = cur.id from rfl] at hvlt
        have hgt : nb.sort_order < w.sort_order := by omega
        have hcurgt : cur.sort_order < w.sort_order := by
          by_contra hcon
          have hwltc : w.sort_order < cur.sort_order := by omega
          have hwlt : vKeyLt w cur = true := by
            rw [vKeyLt_iff]
            exact Or.inl hwltc
          have hwf : w ∈ db.filter (fun v => v.profile_id == u && vKeyLt v cur) :=
            List.mem_filter.mpr ⟨hw, by
              rw [Bool.and_eq_true, beq_iff_eq]
              exact ⟨hvp, hwlt⟩⟩
          have hmax := hnbmax w hwf
          rw [vKeyLt_false_iff] at hmax
          omega
        rw [vKeyLt_false_iff]
        rw [show ({ nb with sort_order := cur.sort_order } : VehicleRow).sort_order
            = cur.sort_order from rfl,
          show ({ nb with sort_order := cur.sort_order } : VehicleRow).created_at
            = nb.created_at from rfl,
          show ({ nb with sort_order := cur.sort_order } : VehicleRow).id
            = nb.id from rfl]
        omega
  have hfilterne : db'.filter (fun v => v.profile_id == u
      && vKeyLt { cur with sort_order := nb.sort_order } v) ≠ [] :=
    List.ne_nil_of_mem hα
  obtain ⟨m, hm⟩ : ∃ m, pickMinV (db'.filter (fun v => v.profile_id == u
      && vKeyLt { cur with sort_order := nb.sort_order } v)) = some m := by
    cases hq : db'.filter (fun v => v.profile_id == u
        && vKeyLt { cur with sort_order := nb.sort_order } v) with
    | nil => exact absurd hq hfilterne
    | cons a t =>
        exact Option.isSome_iff_exists.mp (pickMinV_cons_isSome a t)
  obtain ⟨hmf, hmin⟩ := pickMinV_spec hm
  have hmn2a : vKeyLt m { nb with sort_order := cur.sort_order } = false := hβ m hmf
  have hmn2b : vKeyLt { nb with sort_order := cur.sort_order } m = false :=
    hmin _ hα
  have hmid2 : m.id = ({ nb with sort_order := cur.sort_order } : VehicleRow).id := by
    rw [vKeyLt_false_iff] at hmn2a hmn2b
    omega
  have hmem2 : m ∈ db' := (List.mem_filter.mp hmf).1
  have hmeq : m = { nb with sort_order := cur.sort_order } :=
    nodup_key_inj VehicleRow.id hdb'_nd hmem2 hn2mem hmid2
  rw [hmeq] at hm
  have hswap2 : swapVehicleSortOrders db' u { cur with sort_order := nb.sort_order }
      { nb with sort_order := cur.sort_order } = db := by
    rw [hdbmap, swapVehicleSortOrders, List.map_map]
    have hcong : ∀ v ∈ db,
        ((fun v => if v.profile_id == u
            && v.id == ({ cur with sort_order := nb.sort_order } : VehicleRow).id then
          { v with sort_order := ({ nb with sort_order := cur.sort_order } : VehicleRow).sort_order }
        else if v.profile_id == u
            && v.id == ({ nb with sort_order := cur.sort_order } : VehicleRow).id then
          { v with sort_order := ({ cur with sort_order := nb.sort_order } : VehicleRow).sort_order }
        else v) ∘ f) v = v := by
      intro v hv
      by_cases hvc : v = cur
      · rw [hvc]
        show (if (f cur).profile_id == u && (f cur).id == cur.id then
            { f cur with sort_order := cur.sort_order }
          else if (f cur).profile_id == u && (f cur).id == nb.id then
            { f cur with sort_order := nb.sort_order }
          else f cur) = cur
        rw [hfcur]
        rw [if_pos (by simp [hcurpred.2])]
      · by_cases hvn : v = nb
        · rw [hvn]
          show (if (f nb).profile_id == u && (f nb).id == cur.id then
              { f nb with sort_order := cur.sort_order }
            else if (f nb).profile_id == u && (f nb).id == nb.id then
              { f nb with sort_order := nb.sort_order }
            else f nb) = nb
          rw [hfnb]
          rw [if_neg (by simp [hnbp, hidne]), if_pos (by simp [hnbp])]
        · have ha : v.id ≠ cur.id :=
            fun he => hvc (nodup_key_inj VehicleRow.id hnd hv hcurmem he)
          have hb : v.id ≠ nb.id :=
            fun he => hvn (nodup_key_inj VehicleRow.id hnd hv hnbmem he)
          show (if (f v).profile_id == u && (f v).id == cur.id then
              { f v with sort_order := cur.sort_order }
            else if (f v).profile_id == u && (f v).id == nb.id then
              { f v with sort_order := nb.sort_order }
            else f v) = v
          rw [hfother v ha hb]
          rw [if_neg (by simp [ha]), if_neg (by simp [hb])]
    rw [List.map_congr_left hcong, List.map_id']
  have hfin := reorder_down_moved_intro hfind2 hm
  rw [hswap2] at hfin
  exact hfin

/-- C9 (amended): for both `reorder_vehicle_swap` and `reorder_mod_swap`,
each `moved` swap touches only the two selected rows, exchanging their
`sort_order` values; and when the siblings in scope hold pairwise-distinct
`sort_order` values, `reorder(x, up)` followed by `reorder(x, down)`
restores the exact original table (hence the original relative order).
With colliding `sort_order` values the round-trip half of the original
claim fails (see the counterexample). -/
theorem c9_reorder_swap_amended : C9Spec := by
  refine ⟨?_, ?_, ?_, ?_⟩
  · intro db u vid dir db' hnd hdir h
    rcases hdir with rfl | rfl
    · obtain ⟨cur, nb, hfind, hpick, hdb'⟩ := reorder_up_moved_inv h
      obtain ⟨hnbf, _⟩ := pickMaxV_spec hpick
      rw [List.mem_filter, Bool.and_eq_true] at hnbf
      obtain ⟨hnbmem, hnbpb, hnblt⟩ := hnbf
      have hnbne : nb ≠ cur := by
        intro he
        rw [he, vKeyLt_irrefl cur] at hnblt
        exact Bool.noConfusion hnblt
      obtain ⟨hcurmem, hcurid, hcurp, hnbp, hidne⟩ :=
        moved_common_facts hnd hfind hnbmem hnbpb hnbne
      refine ⟨cur, nb, hcurmem, hnbmem, Ne.symm hidne, hcurp, hnbp, hdb', ?_, ?_, ?_⟩
      · intro v hv h1 h2
        rw [hdb', swapVehicleSortOrders]
        exact List.mem_map.mpr ⟨v, hv, swap_fun_other h1 h2⟩
      · rw [hdb', swapVehicleSortOrders]
        exact List.mem_map.mpr ⟨cur, hcurmem, swap_fun_cur hcurp⟩
      · rw [hdb', swapVehicleSortOrders]
        exact List.mem_map.mpr ⟨nb, hnbmem, swap_fun_nb hnbp hidne⟩
    · obtain ⟨cur, nb, hfind, hpick, hdb'⟩ := reorder_down_moved_inv h
      obtain ⟨hnbf, _⟩ := pickMinV_spec hpick
      rw [List.mem_filter, Bool.and_eq_true] at hnbf
      obtain ⟨hnbmem, hnbpb, hnblt⟩ := hnbf
      have hnbne : nb ≠ cur := by
        intro he
        rw [he] at hnblt
        rw [vKeyLt_irrefl cur] at hnblt
        exact Bool.noConfusion hnblt
      obtain ⟨hcurmem, hcurid, hcurp, hnbp, hidne⟩ :=
        moved_common_facts hnd hfind hnbmem hnbpb hnbne
      refine ⟨cur, nb, hcurmem, hnbmem, Ne.symm hidne, hcurp, hnbp, hdb', ?_, ?_, ?_⟩
      · intro v hv h1 h2
        rw [hdb', swapVehicleSortOrders]
        exact List.mem_map.mpr ⟨v, hv, swap_fun_other h1 h2⟩
      · rw [hdb', swapVehicleSortOrders]
        exact List.mem_map.mpr ⟨cur, hcurmem, swap_fun_cur hcurp⟩
      · rw [hdb', swapVehicleSortOrders]
        exact List.mem_map.mpr ⟨nb, hnbmem, swap_fun_nb hnbp hidne⟩
  · intro db u vid db' hnd hds h1
    exact reorder_round_trip hnd hds h1
  · intro vehicles mods u pvid mid dir mods' hnd hdir h
    rcases hdir with rfl | rfl
    · obtain ⟨cur, nb, hfind, hpick, hdb'⟩ := reorder_mod_up_moved_inv h
      obtain ⟨hnbf, _⟩ := pickMaxM_spec hpick
      rw [List.mem_filter, Bool.and_eq_true] at hnbf
      obtain ⟨hnbmem, hnbvb, hnblt⟩ := hnbf
      have hnbne : nb ≠ cur := by
        intro he
        rw [he, mKeyLt_irrefl cur] at hnblt
        exact Bool.noConfusion hnblt
      obtain ⟨hcurmem, hcurid, hcurveh, hnbveh, hidne⟩ :=
        moved_mod_common_facts hnd hfind hnbmem hnbvb hnbne
      refine ⟨cur, nb, hcurmem, hnbmem, Ne.symm hidne, hcurveh, hnbveh, hdb', ?_, ?_, ?_⟩
      · intro m hm h1 h2
        rw [hdb', swapModSortOrders]
        exact List.mem_map.mpr ⟨m, hm, swapM_fun_other h1 h2⟩
      · rw [hdb', swapModSortOrders]
        exact List.mem_map.mpr ⟨cur, hcurmem, swapM_fun_cur hcurveh⟩
      · rw [hdb', swapModSortOrders]
        exact List.mem_map.mpr ⟨nb, hnbmem, swapM_fun_nb hnbveh hidne⟩
    · obtain ⟨cur, nb, hfind, hpick, hdb'⟩ := reorder_mod_down_moved_inv h
      obtain ⟨hnbf, _⟩ := pickMinM_spec hpick
      rw [List.mem_filter, Bool.and_eq_true] at hnbf
      obtain ⟨hnbmem, hnbvb, hnblt⟩ := hnbf
      have hnbne : nb ≠ cur := by
        intro he
        rw [he] at hnblt
        rw [mKeyLt_irrefl cur] at hnblt
        exact Bool.noConfusion hnblt
      obtain ⟨hcurmem, hcurid, hcurveh, hnbveh, hidne⟩ :=
        moved_mod_common_facts hnd hfind hnbmem hnbvb hnbne
      refine ⟨cur, nb, hcurmem, hnbmem, Ne.symm hidne, hcurveh, hnbveh, hdb', ?_, ?_, ?_⟩
      · intro m hm h1 h2
        rw [hdb', swapModSortOrders]
        exact List.mem_map.mpr ⟨m, hm, swapM_fun_other h1 h2⟩
      · rw [hdb', swapModSortOrders]
        exact List.mem_map.mpr ⟨cur, hcurmem, swapM_fun_cur hcurveh⟩
      · rw [hdb', swapModSortOrders]
        exact List.mem_map.mpr ⟨nb, hnbmem, swapM_fun_nb hnbveh hidne⟩
  · intro vehicles mods u pvid mid mods' hnd hds h1
    exact reorder_mod_round_trip hnd hds h1

/-- Witness for the amended C9: with distinct `sort_order` values, moving a
vehicle (resp. a mod) up and then down restores the exact original table. -/
theorem c9_reorder_swap_amended_witness :
    ((([(⟨1, "u", 0, 0⟩ : VehicleRow), ⟨2, "u", 1, 0⟩].map VehicleRow.id).Nodup ∧
      (∀ a ∈ [(⟨1, "u", 0, 0⟩ : VehicleRow), ⟨2, "u", 1, 0⟩],
        ∀ b ∈ [(⟨1, "u", 0, 0⟩ : VehicleRow), ⟨2, "u", 1, 0⟩],
        a.profile_id = "u" → b.profile_id = "u" → a ≠ b →
        a.sort_order ≠ b.sort_order) ∧
      reorder_vehicle_swap [(⟨1, "u", 0, 0⟩ : VehicleRow), ⟨2, "u", 1, 0⟩]
        (some "u") 2 "up"
        = .ok ("moved", [(⟨1, "u", 1, 0⟩ : VehicleRow), ⟨2, "u", 0, 0⟩])) ∧
    reorder_vehicle_swap [(⟨1, "u", 1, 0⟩ : VehicleRow), ⟨2, "u", 0, 0⟩]
      (some "u") 2 "down"
      = .ok ("moved", [(⟨1, "u", 0, 0⟩ : VehicleRow), ⟨2, "u", 1, 0⟩])) ∧
    ((([(⟨1, 9, 0, 0⟩ : ModOrderRow), ⟨2, 9, 1, 0⟩].map ModOrderRow.id).Nodup ∧
      (∀ a ∈ [(⟨1, 9, 0, 0⟩ : ModOrderRow), ⟨2, 9, 1, 0⟩],
        ∀ b ∈ [(⟨1, 9, 0, 0⟩ : ModOrderRow), ⟨2, 9, 1, 0⟩],
        a.vehicle_id = 9 → b.vehicle_id = 9 → a ≠ b →
        a.sort_order ≠ b.sort_order) ∧
      reorder_mod_swap [(⟨9, "u", 0, 0⟩ : VehicleRow)]
        [(⟨1, 9, 0, 0⟩ : ModOrderRow), ⟨2, 9, 1, 0⟩] (some "u") 9 2 "up"
        = .ok ("moved", [(⟨1, 9, 1, 0⟩ : ModOrderRow), ⟨2, 9, 0, 0⟩])) ∧
    reorder_mod_swap [(⟨9, "u", 0, 0⟩ : VehicleRow)]
      [(⟨1, 9, 1, 0⟩ : ModOrderRow), ⟨2, 9, 0, 0⟩] (some "u") 9 2 "down"
      = .ok ("moved", [(⟨1, 9, 0, 0⟩ : ModOrderRow), ⟨2, 9, 1, 0⟩])) :=
  ⟨⟨⟨by decide, by decide, rfl⟩,
    c9_reorder_swap_amended.2.1 [⟨1, "u", 0, 0⟩, ⟨2, "u", 1, 0⟩] "u" 2
      [⟨1, "u", 1, 0⟩, ⟨2, "u", 0, 0⟩] (by decide) (by decide) rfl⟩,
   ⟨⟨by decide, by decide, rfl⟩,
    c9_reorder_swap_amended.2.2.2 [⟨9, "u", 0, 0⟩] [⟨1, 9, 0, 0⟩, ⟨2, 9, 1, 0⟩]
      "u" 9 2 [⟨1, 9, 1, 0⟩, ⟨2, 9, 0, 0⟩] (by decide) (by decide) rfl⟩⟩
